import Mathlib

/-!
# mcsema: the module lifting pipeline and the symbol-export stage

A shallow embedding of `mcsema/BC/Lift.cpp`: the static functions
`ExportFunctions` and `ExportVariables` and the entry point
`LiftCodeIntoModule`.

The global `gModule` (an `llvm::Module *`) is passed explicitly as a state.
The part of the LLVM API the file uses (`getFunction`, `getGlobalVariable`,
`setName`, `setLinkage`, `setVisibility`, `setDLLStorageClass`) is embedded
over a small model of a module: its functions and its global variables, each
with a name, a linkage, a visibility and a DLL storage class.  A value is
identified by its position in its list; no operation removes or reorders
values, so a position plays the part of the C++ pointer.  Functions and
global variables share the symbol table of the module, where a name belongs
to one value: a lookup among the functions, or among the global variables, is
the lookup of the table followed by the cast to the kind asked for.  A value
without a name has the empty name; the table does not hold it.
-/

namespace mcsema

/-! ## The IR module -/

/-- The linkage kinds of `llvm::GlobalValue::LinkageTypes`. -/
inductive LinkageTypes where
  | ExternalLinkage
  | AvailableExternallyLinkage
  | LinkOnceAnyLinkage
  | LinkOnceODRLinkage
  | WeakAnyLinkage
  | WeakODRLinkage
  | AppendingLinkage
  | InternalLinkage
  | PrivateLinkage
  | ExternalWeakLinkage
  | CommonLinkage
deriving DecidableEq

/-- The visibility kinds of `llvm::GlobalValue::VisibilityTypes`. -/
inductive VisibilityTypes where
  | DefaultVisibility
  | HiddenVisibility
  | ProtectedVisibility
deriving DecidableEq

/-- The storage classes of `llvm::GlobalValue::DLLStorageClassTypes`. -/
inductive DLLStorageClassTypes where
  | DefaultStorageClass
  | DLLImportStorageClass
  | DLLExportStorageClass
deriving DecidableEq

/-- The attributes of an `llvm::GlobalValue` (a function or a global
variable) that the export stage reads or writes. -/
structure GlobalValue where
  name : String
  linkage : LinkageTypes
  visibility : VisibilityTypes
  dllStorageClass : DLLStorageClassTypes
deriving DecidableEq

/-- The module `gModule`: its functions, its global variables, and the
counter `LastUnique` of its symbol table. -/
structure Module where
  functions : List GlobalValue
  globals : List GlobalValue
  lastUnique : Nat
deriving DecidableEq

/-- `GlobalValue::isLocalLinkage`: internal or private linkage. -/
def isLocalLinkage : LinkageTypes → Bool
  | .InternalLinkage => true
  | .PrivateLinkage => true
  | _ => false

/-- `GlobalValue::hasLocalLinkage`. -/
def GlobalValue.hasLocalLinkage (v : GlobalValue) : Bool :=
  isLocalLinkage v.linkage

/-- `GlobalValue::setLinkage`: a local linkage resets the visibility to the
default one; the linkage is then stored. -/
def GlobalValue.setLinkage (v : GlobalValue) (lt : LinkageTypes) : GlobalValue :=
  if isLocalLinkage lt then
    { v with visibility := .DefaultVisibility, linkage := lt }
  else
    { v with linkage := lt }

/-- `GlobalValue::setVisibility`. -/
def GlobalValue.setVisibility (v : GlobalValue) (vis : VisibilityTypes) : GlobalValue :=
  { v with visibility := vis }

/-- `GlobalValue::setDLLStorageClass`. -/
def GlobalValue.setDLLStorageClass (v : GlobalValue) (c : DLLStorageClassTypes) :
    GlobalValue :=
  { v with dllStorageClass := c }

/-- Position of the first value of a list whose name is `n`. -/
def firstCarrying (n : String) : List GlobalValue → Option Nat
  | [] => none
  | v :: vs => if v.name = n then some 0 else (firstCarrying n vs).map (· + 1)

/-- The lookup of the symbol table, `ValueSymbolTable::lookup`, among the
values of one kind.  A value without a name has the empty name and is not in
the table: the lookup of the empty name finds nothing. -/
def findByName (n : String) (vs : List GlobalValue) : Option Nat :=
  if n = "" then none else firstCarrying n vs

/-- Apply `f` to the value at position `i`, leaving the others alone. -/
def updateAt (f : GlobalValue → GlobalValue) : Nat → List GlobalValue → List GlobalValue
  | _, [] => []
  | 0, v :: vs => f v :: vs
  | i + 1, v :: vs => v :: updateAt f i vs

/-- `Module::getFunction(Name)`: the function of that name, or none. -/
def Module.getFunction (m : Module) (n : String) : Option Nat :=
  findByName n m.functions

/-- `Module::getGlobalVariable(Name)`, which is
`getGlobalVariable(Name, /*AllowInternal=*/false)`: the global variable of
that name, unless it has local linkage. -/
def Module.getGlobalVariable (m : Module) (n : String) : Option Nat :=
  match findByName n m.globals with
  | none => none
  | some i =>
    match m.globals[i]? with
    | none => none
    | some v => if v.hasLocalLinkage then none else some i

/-- Mutation of the function behind the pointer `i`. -/
def Module.updFunction (m : Module) (i : Nat) (f : GlobalValue → GlobalValue) : Module :=
  { m with functions := updateAt f i m.functions }

/-- Mutation of the global variable behind the pointer `i`. -/
def Module.updGlobal (m : Module) (i : Nat) (f : GlobalValue → GlobalValue) : Module :=
  { m with globals := updateAt f i m.globals }

/-- Whether the symbol table holds the name `s` for a value other than the
global variable `i` (functions and global variables share one table).  The
table holds no value under the empty name. -/
def Module.takenByOther (m : Module) (i : Nat) (s : String) : Bool :=
  s != "" &&
    (m.functions.any (fun v => v.name == s) ||
      (m.globals.eraseIdx i).any (fun v => v.name == s))

/-- `ValueSymbolTable::makeUniqueName` for a global value: append `.` and the
next value of the counter until the name is free.  The loop is bounded by
`fuel`; with more candidates than values in the table a free one is met
before the fuel is spent. -/
def makeUniqueName (taken : String → Bool) (base : String) : Nat → Nat → String × Nat
  | 0, last => (base ++ "." ++ toString (last + 1), last + 1)
  | fuel + 1, last =>
    if taken (base ++ "." ++ toString (last + 1)) then
      makeUniqueName taken base fuel (last + 1)
    else
      (base ++ "." ++ toString (last + 1), last + 1)

/-- `Value::setName` on the global variable `i`.  Nothing happens when the
name does not change.  Otherwise the old name leaves the symbol table and
the new one is inserted; when another value already holds it, the symbol
table picks a unique name instead (`ValueSymbolTable::createValueName`).  The
empty name is held by no value, so a rename to it leaves the global without a
name and the counter of the table as it was. -/
def Module.setGlobalName (m : Module) (i : Nat) (n : String) : Module :=
  match m.globals[i]? with
  | none => m
  | some v =>
    if v.name = n then m
    else if m.takenByOther i n then
      let r := makeUniqueName (m.takenByOther i) n
        (m.functions.length + m.globals.length) m.lastUnique
      { m with globals := updateAt (fun w => { w with name := r.1 }) i m.globals,
               lastUnique := r.2 }
    else
      { m with globals := updateAt (fun w => { w with name := n }) i m.globals }

/-! ## The recovered module -/

/-- The fields of `NativeObject` (the base of `NativeFunction` and
`NativeVariable`) that `Lift.cpp` reads. -/
structure NativeObject where
  ea : Nat
  name : String
  lifted_name : String
deriving DecidableEq

/-- The fields of `NativeModule` that `Lift.cpp` reads.  The unordered maps
are association lists from addresses; each unordered set is the list of its
elements in iteration order. -/
structure NativeModule where
  ea_to_func : List (Nat × NativeObject)
  ea_to_var : List (Nat × NativeObject)
  exported_funcs : List Nat
  exported_vars : List Nat

/-- `cfg_module->ea_to_func.at(ea)->Get()`: `at` throws when the address is
not a key.  The map is taken to hold the objects that `Get` returns (the
forwarding between objects is declared in `CFG.h`, outside the sources). -/
def NativeModule.funcAt (cfg_module : NativeModule) (ea : Nat) : Option NativeObject :=
  cfg_module.ea_to_func.lookup ea

/-- `cfg_module->ea_to_var.at(ea)->Get()`: `at` throws when the address is
not a key.  The map is taken to hold the objects that `Get` returns. -/
def NativeModule.varAt (cfg_module : NativeModule) (ea : Nat) : Option NativeObject :=
  cfg_module.ea_to_var.lookup ea

/-! ## The export stage -/

/-- How a run of an export loop ends: it completes with a module, or a fatal
check (a failed `CHECK`, or the exception from `at`) stops the process with
the module in the given state. -/
inductive Outcome where
  | done (m : Module)
  | fatal (m : Module)
deriving DecidableEq

/-- A range-based `for (auto ea : addresses)` whose body is `body`: the
addresses are visited in order, each iteration works on the module the
previous one left, and an iteration that stops the process ends the loop with
the module as that iteration found it. -/
def forEachAddress (body : Module → Nat → Option Module) : List Nat → Module → Outcome
  | [], m => .done m
  | ea :: rest, m =>
    match body m ea with
    | none => .fatal m
    | some m1 => forEachAddress body rest m1

/-- Modelled from the spec: `GetNativeToLiftedEntryPoint` of
`mcsema/BC/Callback.cpp`, which is not among the sources.  "Obtain (or
synthesize) a native-call entry point [...] its name is untouched (it already
carries the intended external name)": the first function of the module that
carries the native name is returned when there is one; otherwise a new
function carrying that name is added to the module and returned.  The spec
speaks of the name the entity carries, not of a lookup in the symbol table,
so the functions themselves are searched.  The new function starts with
internal linkage; `ExportFunctions` sets its linkage and visibility at once. -/
def GetNativeToLiftedEntryPoint (m : Module) (cfg_func : NativeObject) : Module × Nat :=
  match firstCarrying cfg_func.name m.functions with
  | some ep => (m, ep)
  | none =>
    ({ m with functions := m.functions ++
        [{ name := cfg_func.name, linkage := .InternalLinkage,
           visibility := .DefaultVisibility, dllStorageClass := .DefaultStorageClass }] },
     m.functions.length)

/-- One iteration of the loop of `ExportFunctions`, for the address `ea`:
- `ea_to_func.at(ea)->Get()`;
- `CHECK(gModule->getFunction(cfg_func->lifted_name) != nullptr)`;
- `ep = GetNativeToLiftedEntryPoint(cfg_func)`;
- `ep->setLinkage(ExternalLinkage); ep->setVisibility(DefaultVisibility)`.
The result is `none` when the iteration stops the process, which it does
before it changes the module. -/
def exportFunction (cfg_module : NativeModule) (m : Module) (ea : Nat) : Option Module :=
  match cfg_module.funcAt ea with
  | none => none
  | some cfg_func =>
    match m.getFunction cfg_func.lifted_name with
    | none => none
    | some _ =>
      let r := GetNativeToLiftedEntryPoint m cfg_func
      some (r.1.updFunction r.2 (fun ep =>
        (ep.setLinkage .ExternalLinkage).setVisibility .DefaultVisibility))

/-- `ExportFunctions`: add entrypoint functions for any exported functions. -/
def ExportFunctions (cfg_module : NativeModule) (m : Module) : Outcome :=
  forEachAddress (exportFunction cfg_module) cfg_module.exported_funcs m

/-- One iteration of the loop of `ExportVariables`, for the address `ea`:
- `ea_to_var.at(ea)->Get()`;
- `var = gModule->getGlobalVariable(cfg_var->lifted_name)`; `CHECK(var != nullptr)`;
- `var->setName(cfg_var->name)`; `var->setLinkage(ExternalLinkage)`;
  `var->setDLLStorageClass(DLLExportStorageClass)`.
The result is `none` when the iteration stops the process, which it does
before it changes the module. -/
def exportVariable (cfg_module : NativeModule) (m : Module) (ea : Nat) : Option Module :=
  match cfg_module.varAt ea with
  | none => none
  | some cfg_var =>
    match m.getGlobalVariable cfg_var.lifted_name with
    | none => none
    | some var =>
      some ((m.setGlobalName var cfg_var.name).updGlobal var (fun v =>
        (v.setLinkage .ExternalLinkage).setDLLStorageClass .DLLExportStorageClass))

/-- `ExportVariables`: export any variables that should be externally
visible, renaming the lifted variables to their original names. -/
def ExportVariables (cfg_module : NativeModule) (m : Module) : Outcome :=
  forEachAddress (exportVariable cfg_module) cfg_module.exported_vars m

/-! ## The orchestrator -/

/-- The stages that `LiftCodeIntoModule` invokes. -/
inductive Stage where
  | DeclareExternals
  | DeclareLiftedFunctions
  | AddDataSegments
  | DefineLiftedFunctions
  | ExportFunctions
  | ExportVariables
  | CallInitFiniCode
  | DowngradeModule
  | OptimizeModule
  | PropagateInstAnnotations
deriving DecidableEq

/-- The stages defined in other files of the repository, taken as
parameters: each is a transformation of `gModule`; `DefineLiftedFunctions`
also returns its `bool`. -/
structure Stages where
  DeclareExternals : NativeModule → Module → Module
  DeclareLiftedFunctions : NativeModule → Module → Module
  AddDataSegments : NativeModule → Module → Module
  DefineLiftedFunctions : NativeModule → Module → Bool × Module
  CallInitFiniCode : NativeModule → Module → Module
  DowngradeModule : Module → Module
  OptimizeModule : Module → Module
  PropagateInstAnnotations : Module → Module

/-- How a call of `LiftCodeIntoModule` ends: it returns its `bool`, or a
fatal check of the export stage stops the process. -/
inductive Result where
  | returned (b : Bool)
  | aborted
deriving DecidableEq

/-- A point of a run of `LiftCodeIntoModule`: the stages invoked so far, in
order, and the state of `gModule`. -/
structure Progress where
  trace : List Stage
  module : Module

/-- A finished run: the stages invoked, the module left behind, and how the
call ended. -/
structure Run where
  trace : List Stage
  module : Module
  result : Result

/-- Invoke a stage that cannot fail. -/
def Progress.invoke (p : Progress) (s : Stage) (f : Module → Module) : Progress :=
  { trace := p.trace ++ [s], module := f p.module }

/-- End a run at the point `p`. -/
def Progress.finish (p : Progress) (r : Result) : Run :=
  { trace := p.trace, module := p.module, result := r }

/-- The tail of `LiftCodeIntoModule`, from `CallInitFiniCode` to
`return true`. -/
def liftTail (S : Stages) (FLAGS_legacy_mode : Bool) ( FLAGS_pc_annotation : String)
    (cfg_module : NativeModule) (p : Progress) : Run :=
  let p7 := p.invoke .CallInitFiniCode (S.CallInitFiniCode cfg_module)
  let p8 := if FLAGS_legacy_mode then p7.invoke .DowngradeModule S.DowngradeModule else p7
  let p9 := p8.invoke .OptimizeModule S.OptimizeModule
  let p10 := if ! FLAGS_pc_annotation.isEmpty then
      p9.invoke .PropagateInstAnnotations S.PropagateInstAnnotations
    else p9
  p10.finish (.returned true)

/-- `LiftCodeIntoModule`, started with `gModule` in the state `gModule`. -/
def LiftCodeIntoModule (S : Stages) (FLAGS_legacy_mode : Bool) ( FLAGS_pc_annotation : String)
    (cfg_module : NativeModule) (gModule : Module) : Run :=
  let p0 : Progress := { trace := [], module := gModule }
  let p1 := p0.invoke .DeclareExternals (S.DeclareExternals cfg_module)
  let p2 := p1.invoke .DeclareLiftedFunctions (S.DeclareLiftedFunctions cfg_module)
  let p3 := p2.invoke .AddDataSegments (S.AddDataSegments cfg_module)
  let d := S.DefineLiftedFunctions cfg_module p3.module
  let p4 : Progress := { trace := p3.trace ++ [.DefineLiftedFunctions], module := d.2 }
  if !d.1 then
    p4.finish (.returned false)
  else
    match ExportFunctions cfg_module p4.module with
    | .fatal m => { trace := p4.trace ++ [.ExportFunctions], module := m, result := .aborted }
    | .done m5 =>
      match ExportVariables cfg_module m5 with
      | .fatal m =>
        { trace := p4.trace ++ [.ExportFunctions, .ExportVariables], module := m,
          result := .aborted }
      | .done m6 =>
        liftTail S FLAGS_legacy_mode FLAGS_pc_annotation cfg_module
          { trace := p4.trace ++ [.ExportFunctions, .ExportVariables], module := m6 }

/-- The state of `gModule` when `DefineLiftedFunctions` is called. -/
def moduleAtDefine (S : Stages) (cfg_module : NativeModule) (gModule : Module) : Module :=
  S.AddDataSegments cfg_module
    (S.DeclareLiftedFunctions cfg_module (S.DeclareExternals cfg_module gModule))

/-- The stages that precede the export stage, in the order of the calls. -/
def stagesToDefine : List Stage :=
  [.DeclareExternals, .DeclareLiftedFunctions, .AddDataSegments, .DefineLiftedFunctions]

/-- The stages invoked by a call that returns `true`, in the order of the
calls. -/
def stagesOfSuccess (FLAGS_legacy_mode : Bool) ( FLAGS_pc_annotation : String) : List Stage :=
  stagesToDefine ++ [.ExportFunctions, .ExportVariables, .CallInitFiniCode]
    ++ (if FLAGS_legacy_mode then [.DowngradeModule] else [])
    ++ [.OptimizeModule]
    ++ (if FLAGS_pc_annotation.isEmpty then [] else [.PropagateInstAnnotations])

/-- Whether, reading the trace from its start, the stage `a` is met before any
`b` (or no `b` is met at all). -/
def runsOnlyAfter (a b : Stage) : List Stage → Bool
  | [] => true
  | x :: xs => if x = b then false else if x = a then true else runsOnlyAfter a b xs

/-! ## Concrete inputs -/

/-- Stages that leave the module alone; `DefineLiftedFunctions` returns `ok`. -/
def idleStages (ok : Bool) : Stages where
  DeclareExternals := fun _ m => m
  DeclareLiftedFunctions := fun _ m => m
  AddDataSegments := fun _ m => m
  DefineLiftedFunctions := fun _ m => (ok, m)
  CallInitFiniCode := fun _ m => m
  DowngradeModule := fun m => m
  OptimizeModule := fun m => m
  PropagateInstAnnotations := fun m => m

/-- A lifted function shell or lifted variable as the declaring stages leave
it: named by its lifted name, with the given linkage. -/
def lifted (n : String) (l : LinkageTypes) : GlobalValue :=
  { name := n, linkage := l, visibility := .DefaultVisibility,
    dllStorageClass := .DefaultStorageClass }

/-- The recovered module of the function scenario: one function at `0x1000`,
lifted name `sub_1000`, native name `compute`, exported. -/
def computeCfg : NativeModule where
  ea_to_func := [(0x1000, { ea := 0x1000, name := "compute", lifted_name := "sub_1000" })]
  ea_to_var := []
  exported_funcs := [0x1000]
  exported_vars := []

/-- The IR module of the function scenario before the export stage. -/
def computeModule : Module where
  functions := [lifted "sub_1000" .InternalLinkage]
  globals := []
  lastUnique := 0

/-- The recovered module of the variable scenario: one variable at `0x2000`,
lifted name `data_2000`, native name `g_counter`, exported. -/
def counterCfg : NativeModule where
  ea_to_func := []
  ea_to_var := [(0x2000, { ea := 0x2000, name := "g_counter", lifted_name := "data_2000" })]
  exported_funcs := []
  exported_vars := [0x2000]

/-- The IR module of the variable scenario before the export stage. -/
def counterModule : Module where
  functions := []
  globals := [lifted "data_2000" .ExternalLinkage]
  lastUnique := 0

/-- The function scenario with a second exported address, `0x9999`, that
`ea_to_func` does not know; the set is iterated with `0x1000` first. -/
def unknownCfg : NativeModule where
  ea_to_func := [(0x1000, { ea := 0x1000, name := "compute", lifted_name := "sub_1000" })]
  ea_to_var := []
  exported_funcs := [0x1000, 0x9999]
  exported_vars := []

/-- A recovered module with both scenarios: the exported function `compute`
at `0x1000` and the exported variable `g_counter` at `0x2000`, and a function
at `0x3000` and a variable at `0x4000` that are not exported. -/
def stageCfg : NativeModule where
  ea_to_func := [(0x1000, { ea := 0x1000, name := "compute", lifted_name := "sub_1000" }),
                 (0x3000, { ea := 0x3000, name := "helper", lifted_name := "sub_3000" })]
  ea_to_var := [(0x2000, { ea := 0x2000, name := "g_counter", lifted_name := "data_2000" }),
                (0x4000, { ea := 0x4000, name := "g_table", lifted_name := "data_4000" })]
  exported_funcs := [0x1000]
  exported_vars := [0x2000]

/-- The IR module of `stageCfg` before the export stage. -/
def stageModule : Module where
  functions := [lifted "sub_1000" .InternalLinkage, lifted "sub_3000" .InternalLinkage]
  globals := [lifted "data_2000" .ExternalLinkage, lifted "data_4000" .ExternalLinkage]
  lastUnique := 0

/-- The IR module of `stageCfg` after the export stage. -/
def stageModuleExported : Module where
  functions := [lifted "sub_1000" .InternalLinkage, lifted "sub_3000" .InternalLinkage,
                lifted "compute" .ExternalLinkage]
  globals := [{ name := "g_counter", linkage := .ExternalLinkage,
                visibility := .DefaultVisibility,
                dllStorageClass := .DLLExportStorageClass },
              lifted "data_4000" .ExternalLinkage]
  lastUnique := 0

/-- The global `v` as an iteration of `ExportVariables` leaves it when the
name `n` is free: `setName(n)`, `setLinkage(ExternalLinkage)`,
`setDLLStorageClass(DLLExportStorageClass)`. -/
def GlobalValue.exportedAs (v : GlobalValue) (n : String) : GlobalValue :=
  (({ v with name := n } : GlobalValue).setLinkage .ExternalLinkage).setDLLStorageClass
    .DLLExportStorageClass

/-- The proviso under which the renames of `ExportVariables` over the
addresses `l` do not interfere, stated of the module `m` on entry:
the addresses are pairwise distinct (they are a set); every address resolves
in `ea_to_var` and `getGlobalVariable` finds its lifted global; the lifted
names are pairwise distinct, and so are the native names; and no native name
is held, in the symbol table, by a value, function or global variable, other
than the variable's own lifted global. -/
structure ExportReady (cfg_module : NativeModule) (l : List Nat) (m : Module) : Prop where
  nodup : l.Nodup
  resolved : ∀ ea ∈ l, ∃ cfg_var var, cfg_module.varAt ea = some cfg_var ∧
    m.getGlobalVariable cfg_var.lifted_name = some var
  lifted_distinct : ∀ ea1 ∈ l, ∀ ea2 ∈ l, ∀ cv1 cv2, cfg_module.varAt ea1 = some cv1 →
    cfg_module.varAt ea2 = some cv2 → cv1.lifted_name = cv2.lifted_name → ea1 = ea2
  names_distinct : ∀ ea1 ∈ l, ∀ ea2 ∈ l, ∀ cv1 cv2, cfg_module.varAt ea1 = some cv1 →
    cfg_module.varAt ea2 = some cv2 → cv1.name = cv2.name → ea1 = ea2
  names_free : ∀ ea ∈ l, ∀ cfg_var var, cfg_module.varAt ea = some cfg_var →
    m.getGlobalVariable cfg_var.lifted_name = some var →
    m.takenByOther var cfg_var.name = false

/-- The variable scenario with a lifted name equal to the native name. -/
def sameNameCfg : NativeModule where
  ea_to_func := []
  ea_to_var := [(0x2000, { ea := 0x2000, name := "g_counter", lifted_name := "g_counter" })]
  exported_funcs := []
  exported_vars := [0x2000]

/-- The IR module of `sameNameCfg` before the export stage. -/
def sameNameModule : Module where
  functions := []
  globals := [lifted "g_counter" .ExternalLinkage]
  lastUnique := 0

/-- Two exported variables, at `0x2000` and `0x3000`, with one native name. -/
def sharedNameCfg : NativeModule where
  ea_to_func := []
  ea_to_var := [(0x2000, { ea := 0x2000, name := "g_counter", lifted_name := "data_2000" }),
                (0x3000, { ea := 0x3000, name := "g_counter", lifted_name := "data_3000" })]
  exported_funcs := []
  exported_vars := [0x2000, 0x3000]

/-- The IR module of `sharedNameCfg` before the export stage. -/
def sharedNameModule : Module where
  functions := []
  globals := [lifted "data_2000" .ExternalLinkage, lifted "data_3000" .ExternalLinkage]
  lastUnique := 0

/-- Two exported variables, `g_counter` at `0x2000` and `g_limit` at `0x3000`. -/
def twoVarsCfg : NativeModule where
  ea_to_func := []
  ea_to_var := [(0x2000, { ea := 0x2000, name := "g_counter", lifted_name := "data_2000" }),
                (0x3000, { ea := 0x3000, name := "g_limit", lifted_name := "data_3000" })]
  exported_funcs := []
  exported_vars := [0x2000, 0x3000]

/-- The IR module of `twoVarsCfg` before the export stage. -/
def twoVarsModule : Module where
  functions := [lifted "sub_1000" .InternalLinkage]
  globals := [lifted "data_2000" .ExternalLinkage, lifted "data_3000" .ExternalLinkage]
  lastUnique := 0

/-- Stages that leave their mark: each appends to the module a function named
after the stage, so that the module shows which stage functions were applied
and in which order; `DefineLiftedFunctions` returns `ok`. -/
def markingStages (ok : Bool) : Stages where
  DeclareExternals := fun _ m =>
    { m with functions := m.functions ++ [lifted "DeclareExternals" .InternalLinkage] }
  DeclareLiftedFunctions := fun _ m =>
    { m with functions := m.functions ++ [lifted "DeclareLiftedFunctions" .InternalLinkage] }
  AddDataSegments := fun _ m =>
    { m with functions := m.functions ++ [lifted "AddDataSegments" .InternalLinkage] }
  DefineLiftedFunctions := fun _ m =>
    (ok, { m with functions := m.functions ++
      [lifted "DefineLiftedFunctions" .InternalLinkage] })
  CallInitFiniCode := fun _ m =>
    { m with functions := m.functions ++ [lifted "CallInitFiniCode" .InternalLinkage] }
  DowngradeModule := fun m =>
    { m with functions := m.functions ++ [lifted "DowngradeModule" .InternalLinkage] }
  OptimizeModule := fun m =>
    { m with functions := m.functions ++ [lifted "OptimizeModule" .InternalLinkage] }
  PropagateInstAnnotations := fun m =>
    { m with functions := m.functions ++
      [lifted "PropagateInstAnnotations" .InternalLinkage] }

/-- The IR module of the variable scenario with the lifted global present
under its lifted name, but with internal linkage. -/
def internalModule : Module where
  functions := []
  globals := [lifted "data_2000" .InternalLinkage]
  lastUnique := 0

/-- An exported function at `0x1000` whose native name, `main`, is also its
lifted name, and an exported function at `0x3000` whose native name, `start`,
is the lifted name of the function at `0x5000`, which is not exported. -/
def mainCfg : NativeModule where
  ea_to_func := [(0x1000, { ea := 0x1000, name := "main", lifted_name := "main" }),
                 (0x3000, { ea := 0x3000, name := "start", lifted_name := "sub_3000" }),
                 (0x5000, { ea := 0x5000, name := "entry", lifted_name := "start" })]
  ea_to_var := []
  exported_funcs := [0x1000, 0x3000]
  exported_vars := []

/-- The IR module of `mainCfg` before the export stage: the three lifted
bodies, with internal linkage. -/
def mainModule : Module where
  functions := [lifted "main" .InternalLinkage, lifted "sub_3000" .InternalLinkage,
                lifted "start" .InternalLinkage]
  globals := []
  lastUnique := 0

/-- Two exported variables, `a` at `0x2000` and `b` at `0x3000`. -/
def heldNamesCfg : NativeModule where
  ea_to_func := []
  ea_to_var := [(0x2000, { ea := 0x2000, name := "a", lifted_name := "data_2000" }),
                (0x3000, { ea := 0x3000, name := "b", lifted_name := "data_3000" })]
  exported_funcs := []
  exported_vars := [0x2000, 0x3000]

/-- The IR module of `heldNamesCfg` before the export stage: the two lifted
globals, and two functions that hold the names `a` and `b`. -/
def heldNamesModule : Module where
  functions := [lifted "a" .ExternalLinkage, lifted "b" .ExternalLinkage]
  globals := [lifted "data_2000" .ExternalLinkage, lifted "data_3000" .ExternalLinkage]
  lastUnique := 0

end mcsema

/-! # Theorems -/

namespace mcsema

/-! ## Lists of values -/

theorem updateAt_length (f : GlobalValue → GlobalValue) (i : Nat) (l : List GlobalValue) :
    (updateAt f i l).length = l.length := by
  induction l generalizing i with
  | nil => simp [updateAt]
  | cons v vs ih => cases i <;> simp [updateAt, ih]

theorem updateAt_getElem?_eq (f : GlobalValue → GlobalValue) (i : Nat) (l : List GlobalValue) :
    (updateAt f i l)[i]? = (l[i]?).map f := by
  induction l generalizing i with
  | nil => simp [updateAt]
  | cons v vs ih => cases i <;> simp [updateAt, ih]

theorem updateAt_getElem?_ne (f : GlobalValue → GlobalValue) (i j : Nat)
    (l : List GlobalValue) (h : j ≠ i) : (updateAt f i l)[j]? = l[j]? := by
  induction l generalizing i j with
  | nil => simp [updateAt]
  | cons v vs ih =>
    cases i with
    | zero =>
      cases j with
      | zero => exact absurd rfl h
      | succ j => simp [updateAt]
    | succ i =>
      cases j with
      | zero => simp [updateAt]
      | succ j => simpa [updateAt] using ih i j (by omega)

theorem updateAt_of_none (f : GlobalValue → GlobalValue) (i : Nat) (l : List GlobalValue)
    (h : l[i]? = none) : updateAt f i l = l := by
  induction l generalizing i with
  | nil => simp [updateAt]
  | cons v vs ih =>
    cases i with
    | zero => simp at h
    | succ i => simp only [List.getElem?_cons_succ] at h; simp [updateAt, ih i h]

theorem firstCarrying_some {n : String} {l : List GlobalValue} {i : Nat}
    (h : firstCarrying n l = some i) :
    ∃ v, l[i]? = some v ∧ v.name = n ∧ ∀ j w, j < i → l[j]? = some w → w.name ≠ n := by
  induction l generalizing i with
  | nil => simp [firstCarrying] at h
  | cons v vs ih =>
    by_cases hv : v.name = n
    · simp only [firstCarrying, hv, if_true, Option.some.injEq] at h
      subst h
      exact ⟨v, by simp, hv, fun j w hj => absurd hj (Nat.not_lt_zero j)⟩
    · simp only [firstCarrying, hv, if_false, Option.map_eq_some'] at h
      obtain ⟨k, hk, rfl⟩ := h
      obtain ⟨w, hw, hwn, hmin⟩ := ih hk
      refine ⟨w, by simpa using hw, hwn, ?_⟩
      intro j u hj hu
      cases j with
      | zero => simp only [List.getElem?_cons_zero, Option.some.injEq] at hu; rw [← hu]; exact hv
      | succ j =>
        simp only [List.getElem?_cons_succ] at hu
        exact hmin j u (by omega) hu

theorem firstCarrying_none {n : String} {l : List GlobalValue} :
    firstCarrying n l = none ↔ ∀ v ∈ l, v.name ≠ n := by
  induction l with
  | nil => simp [firstCarrying]
  | cons v vs ih =>
    by_cases hv : v.name = n
    · simp [firstCarrying, hv]
    · simp [firstCarrying, hv, ih]

/-- The first position that holds the name is the one `firstCarrying` returns. -/
theorem firstCarrying_of_first {n : String} {l : List GlobalValue} {i : Nat} {v : GlobalValue}
    (hv : l[i]? = some v) (hn : v.name = n)
    (hmin : ∀ j w, j < i → l[j]? = some w → w.name ≠ n) : firstCarrying n l = some i := by
  induction l generalizing i with
  | nil => simp at hv
  | cons u us ih =>
    cases i with
    | zero =>
      simp only [List.getElem?_cons_zero, Option.some.injEq] at hv
      simp [firstCarrying, hv, hn]
    | succ i =>
      have hu : u.name ≠ n := hmin 0 u (by omega) (by simp)
      simp only [List.getElem?_cons_succ] at hv
      have := ih hv (fun j w hj hw => hmin (j + 1) w (by omega) (by simpa using hw))
      simp [firstCarrying, hu, this]

/-- A change at one position that neither removes nor brings the name `n`
does not move what `firstCarrying n` returns. -/
theorem firstCarrying_updateAt {n : String} (f : GlobalValue → GlobalValue) (i : Nat)
    (l : List GlobalValue)
    (h : ∀ v, l[i]? = some v → (v.name = n ↔ (f v).name = n)) :
    firstCarrying n (updateAt f i l) = firstCarrying n l := by
  induction l generalizing i with
  | nil => simp [updateAt]
  | cons v vs ih =>
    cases i with
    | zero =>
      have := h v (by simp)
      by_cases hv : v.name = n
      · simp [updateAt, firstCarrying, hv, this.mp hv]
      · have hf : ¬ (f v).name = n := fun hc => hv (this.mpr hc)
        simp [updateAt, firstCarrying, hv, hf]
    | succ i =>
      have := ih i (fun w hw => h w (by simpa using hw))
      simp [updateAt, firstCarrying, this]

theorem firstCarrying_append_some {n : String} {l : List GlobalValue} {i : Nat}
    (l2 : List GlobalValue) (h : firstCarrying n l = some i) :
    firstCarrying n (l ++ l2) = some i := by
  induction l generalizing i with
  | nil => simp [firstCarrying] at h
  | cons v vs ih =>
    by_cases hv : v.name = n
    · simpa [firstCarrying, hv] using h
    · simp only [firstCarrying, hv, if_false, Option.map_eq_some'] at h
      obtain ⟨k, hk, rfl⟩ := h
      simp [firstCarrying, hv, ih hk]

theorem firstCarrying_append_none {n : String} {l : List GlobalValue} (v : GlobalValue)
    (h : firstCarrying n l = none) (hv : v.name = n) :
    firstCarrying n (l ++ [v]) = some l.length := by
  induction l with
  | nil => simp [firstCarrying, hv]
  | cons u us ih =>
    by_cases hu : u.name = n
    · simp [firstCarrying, hu] at h
    · simp only [firstCarrying, hu, if_false, Option.map_eq_none'] at h
      simp [firstCarrying, hu, ih h]

/-! ## The loop -/

theorem forEachAddress_append (body : Module → Nat → Option Module) (pre post : List Nat)
    (m : Module) :
    forEachAddress body (pre ++ post) m =
      match forEachAddress body pre m with
      | .done m1 => forEachAddress body post m1
      | .fatal m1 => .fatal m1 := by
  induction pre generalizing m with
  | nil => simp [forEachAddress]
  | cons ea rest ih =>
    cases h : body m ea with
    | none => simp [forEachAddress, h]
    | some m1 => simp [forEachAddress, h, ih]

/-- A loop completes exactly when every address is reached with the loop
having completed on the addresses before it, and its iteration does not stop
the process. -/
theorem forEachAddress_done_iff (body : Module → Nat → Option Module) (l : List Nat)
    (m : Module) :
    (∃ m', forEachAddress body l m = .done m') ↔
      ∀ pre ea post, l = pre ++ ea :: post →
        ∃ m1, forEachAddress body pre m = .done m1 ∧ (body m1 ea).isSome = true := by
  induction l generalizing m with
  | nil =>
    constructor
    · intro _ pre ea post h
      cases pre <;> simp at h
    · intro _
      exact ⟨m, rfl⟩
  | cons a rest ih =>
    constructor
    · rintro ⟨m', hm'⟩ pre ea post hl
      cases hb : body m a with
      | none => simp [forEachAddress, hb] at hm'
      | some m1 =>
        simp only [forEachAddress, hb] at hm'
        cases pre with
        | nil =>
          simp only [List.nil_append, List.cons.injEq] at hl
          exact ⟨m, rfl, by rw [← hl.1, hb]; rfl⟩
        | cons p ps =>
          simp only [List.cons_append, List.cons.injEq] at hl
          obtain ⟨rfl, hrest⟩ := hl
          obtain ⟨m2, h2, h3⟩ := (ih m1).mp ⟨m', hm'⟩ ps ea post hrest
          exact ⟨m2, by simp [forEachAddress, hb, h2], h3⟩
    · intro h
      obtain ⟨m0, h0, hs⟩ := h [] a rest rfl
      simp only [forEachAddress, Outcome.done.injEq] at h0
      subst h0
      obtain ⟨m1, hb⟩ := Option.isSome_iff_exists.mp hs
      simp only [forEachAddress, hb]
      apply (ih m1).mpr
      intro pre ea post hl
      obtain ⟨m2, h2, h3⟩ := h (a :: pre) ea post (by simp [hl])
      simp only [forEachAddress, hb] at h2
      exact ⟨m2, h2, h3⟩

/-- The loop stops at the first address whose iteration stops the process,
with the module as the completed iterations left it. -/
theorem forEachAddress_fatal_at (body : Module → Nat → Option Module) (pre post : List Nat)
    (ea : Nat) (m m1 : Module) (hpre : forEachAddress body pre m = .done m1)
    (hbad : body m1 ea = none) : forEachAddress body (pre ++ ea :: post) m = .fatal m1 := by
  rw [forEachAddress_append, hpre]
  simp [forEachAddress, hbad]

/-- A loop that meets an address whose iteration always stops the process
ends in a fatal check, at that address or before it. -/
theorem forEachAddress_fatal_of_bad (body : Module → Nat → Option Module) (l : List Nat)
    (ea : Nat) (m : Module) (hea : ea ∈ l) (hbad : ∀ m1, body m1 ea = none) :
    ∃ pre bad post m1, l = pre ++ bad :: post ∧ ea ∉ pre ∧
      forEachAddress body pre m = .done m1 ∧ body m1 bad = none ∧
      forEachAddress body l m = .fatal m1 := by
  induction l generalizing m with
  | nil => simp at hea
  | cons a rest ih =>
    cases hb : body m a with
    | none =>
      exact ⟨[], a, rest, m, rfl, by simp, rfl, hb, by simp [forEachAddress, hb]⟩
    | some m1 =>
      have hne : a ≠ ea := fun hc => by rw [hc, hbad] at hb; cases hb
      have hea2 : ea ∈ rest := by
        rcases List.mem_cons.mp hea with h | h
        · exact absurd h.symm hne
        · exact h
      obtain ⟨pre, bad, post, m2, hl, hnp, hd, hbd, hf⟩ := ih m1 hea2
      refine ⟨a :: pre, bad, post, m2, by simp [hl], ?_, ?_, hbd, ?_⟩
      · simp only [List.mem_cons, not_or]
        exact ⟨fun hc => hne hc.symm, hnp⟩
      · simp [forEachAddress, hb, hd]
      · simp [forEachAddress, hb, hf]

/-! ## The orchestrator -/

theorem liftTail_trace (S : Stages) (lm : Bool) (pc : String) (cfg : NativeModule)
    (p : Progress) :
    (liftTail S lm pc cfg p).trace = p.trace ++ [.CallInitFiniCode]
      ++ (if lm then [.DowngradeModule] else []) ++ [.OptimizeModule]
      ++ (if pc.isEmpty then [] else [.PropagateInstAnnotations]) := by
  cases lm <;> cases h : pc.isEmpty <;>
    simp [liftTail, Progress.invoke, Progress.finish, h]

theorem liftTail_result (S : Stages) (lm : Bool) (pc : String) (cfg : NativeModule)
    (p : Progress) : (liftTail S lm pc cfg p).result = .returned true := by
  simp [liftTail, Progress.finish]

/-- The ways a call of `LiftCodeIntoModule` can go. -/
theorem lift_cases (S : Stages) (lm : Bool) (pc : String) (cfg : NativeModule) (g : Module) :
    ((S.DefineLiftedFunctions cfg (moduleAtDefine S cfg g)).1 = false ∧
      LiftCodeIntoModule S lm pc cfg g =
        { trace := stagesToDefine,
          module := (S.DefineLiftedFunctions cfg (moduleAtDefine S cfg g)).2,
          result := .returned false }) ∨
    ((S.DefineLiftedFunctions cfg (moduleAtDefine S cfg g)).1 = true ∧
      (LiftCodeIntoModule S lm pc cfg g).result = .aborted ∧
      ((LiftCodeIntoModule S lm pc cfg g).trace = stagesToDefine ++ [.ExportFunctions] ∨
       (LiftCodeIntoModule S lm pc cfg g).trace =
          stagesToDefine ++ [.ExportFunctions, .ExportVariables])) ∨
    ((S.DefineLiftedFunctions cfg (moduleAtDefine S cfg g)).1 = true ∧
      (LiftCodeIntoModule S lm pc cfg g).result = .returned true ∧
      (LiftCodeIntoModule S lm pc cfg g).trace = stagesOfSuccess lm pc) := by
  cases hd : (S.DefineLiftedFunctions cfg (moduleAtDefine S cfg g)).1
  · left
    refine ⟨rfl, ?_⟩
    simp only [moduleAtDefine] at hd
    simp [LiftCodeIntoModule, Progress.invoke, Progress.finish, hd, stagesToDefine,
      moduleAtDefine]
  · right
    simp only [moduleAtDefine] at hd
    cases hf : ExportFunctions cfg (S.DefineLiftedFunctions cfg (moduleAtDefine S cfg g)).2 with
    | fatal m =>
      left
      simp only [moduleAtDefine] at hf
      simp [LiftCodeIntoModule, Progress.invoke, hd, hf, stagesToDefine]
    | done m5 =>
      simp only [moduleAtDefine] at hf
      cases hv : ExportVariables cfg m5 with
      | fatal m =>
        left
        simp [LiftCodeIntoModule, Progress.invoke, hd, hf, hv, stagesToDefine]
      | done m6 =>
        right
        simp [LiftCodeIntoModule, Progress.invoke, hd, hf, hv, stagesToDefine,
          liftTail_result, liftTail_trace, stagesOfSuccess]

theorem liftTail_module (S : Stages) (lm : Bool) (pc : String) (cfg : NativeModule)
    (p : Progress) :
    (liftTail S lm pc cfg p).module =
      (if pc.isEmpty = false then S.PropagateInstAnnotations else id)
        (S.OptimizeModule
          ((if lm = true then S.DowngradeModule else id)
            (S.CallInitFiniCode cfg p.module))) := by
  cases lm <;> cases h : pc.isEmpty <;>
    simp [liftTail, Progress.invoke, Progress.finish, h]

/-- The module a call of `LiftCodeIntoModule` leaves, for each way the call
can end: which stage functions were applied, to what, in which order. -/
theorem lift_modules (S : Stages) (lm : Bool) (pc : String) (cfg : NativeModule) (g : Module) :
    ((LiftCodeIntoModule S lm pc cfg g).result = .returned false →
      (S.DefineLiftedFunctions cfg (moduleAtDefine S cfg g)).1 = false ∧
      (LiftCodeIntoModule S lm pc cfg g).module =
        (S.DefineLiftedFunctions cfg (moduleAtDefine S cfg g)).2) ∧
    ((LiftCodeIntoModule S lm pc cfg g).result = .aborted →
      (S.DefineLiftedFunctions cfg (moduleAtDefine S cfg g)).1 = true ∧
      ((ExportFunctions cfg (S.DefineLiftedFunctions cfg (moduleAtDefine S cfg g)).2 =
            .fatal (LiftCodeIntoModule S lm pc cfg g).module ∧
          (LiftCodeIntoModule S lm pc cfg g).trace = stagesToDefine ++ [.ExportFunctions]) ∨
        ∃ m5, ExportFunctions cfg (S.DefineLiftedFunctions cfg (moduleAtDefine S cfg g)).2 =
            .done m5 ∧
          ExportVariables cfg m5 = .fatal (LiftCodeIntoModule S lm pc cfg g).module ∧
          (LiftCodeIntoModule S lm pc cfg g).trace =
            stagesToDefine ++ [.ExportFunctions, .ExportVariables])) ∧
    ((LiftCodeIntoModule S lm pc cfg g).result = .returned true →
      (S.DefineLiftedFunctions cfg (moduleAtDefine S cfg g)).1 = true ∧
      ∃ m5 m6, ExportFunctions cfg (S.DefineLiftedFunctions cfg (moduleAtDefine S cfg g)).2 =
          .done m5 ∧
        ExportVariables cfg m5 = .done m6 ∧
        (LiftCodeIntoModule S lm pc cfg g).module =
          (if pc.isEmpty = false then S.PropagateInstAnnotations else id)
            (S.OptimizeModule
              ((if lm = true then S.DowngradeModule else id)
                (S.CallInitFiniCode cfg m6)))) := by
  cases hd : (S.DefineLiftedFunctions cfg (moduleAtDefine S cfg g)).1
  · simp only [moduleAtDefine] at hd
    simp [LiftCodeIntoModule, Progress.invoke, Progress.finish, hd, moduleAtDefine]
  · simp only [moduleAtDefine] at hd
    cases hf : ExportFunctions cfg (S.DefineLiftedFunctions cfg (moduleAtDefine S cfg g)).2 with
    | fatal m =>
      simp only [moduleAtDefine] at hf
      simp [LiftCodeIntoModule, Progress.invoke, hd, hf, stagesToDefine]
    | done m5 =>
      simp only [moduleAtDefine] at hf
      cases hv : ExportVariables cfg m5 with
      | fatal m =>
        simp [LiftCodeIntoModule, Progress.invoke, hd, hf, hv, stagesToDefine]
      | done m6 =>
        simp [LiftCodeIntoModule, Progress.invoke, hd, hf, hv, stagesToDefine,
          liftTail_result, liftTail_module]

theorem runsOnlyAfter_sound (a b : Stage) (l : List Stage) (h : runsOnlyAfter a b l = true)
    (pre post : List Stage) (hl : l = pre ++ b :: post) : a ∈ pre := by
  induction l generalizing pre with
  | nil => cases pre <;> simp at hl
  | cons x xs ih =>
    cases pre with
    | nil =>
      simp only [List.nil_append, List.cons.injEq] at hl
      simp [runsOnlyAfter, hl.1] at h
    | cons y ys =>
      simp only [List.cons_append, List.cons.injEq] at hl
      obtain ⟨rfl, hxs⟩ := hl
      by_cases hxa : x = a
      · simp [hxa]
      · by_cases hxb : x = b
        · simp [runsOnlyAfter, hxb] at h
        · simp only [runsOnlyAfter, hxb, hxa, if_false] at h
          exact List.mem_cons_of_mem _ (ih h ys hxs)

/-- Facts that hold of the trace of every run, whatever its end. -/
theorem lift_trace_facts (S : Stages) (lm : Bool) (pc : String) (cfg : NativeModule)
    (g : Module) :
    (LiftCodeIntoModule S lm pc cfg g).trace.Nodup ∧
    runsOnlyAfter .DeclareLiftedFunctions .AddDataSegments
      (LiftCodeIntoModule S lm pc cfg g).trace = true ∧
    runsOnlyAfter .ExportFunctions .ExportVariables
      (LiftCodeIntoModule S lm pc cfg g).trace = true := by
  rcases lift_cases S lm pc cfg g with ⟨-, h⟩ | ⟨-, -, h | h⟩ | ⟨-, -, h⟩
  · rw [h]; simp only []; decide
  · rw [h]; decide
  · rw [h]; decide
  · rw [h]
    cases lm <;> cases hp : pc.isEmpty <;> simp only [stagesOfSuccess, hp] <;> decide

/-- C1: `LiftCodeIntoModule` returns `false` exactly when
`DefineLiftedFunctions` returns `false`, for every recovered module, every
setting of the two flags and every behaviour of the other stages; and on
every run that no fatal check of the export stage stops, the value returned
is the one `DefineLiftedFunctions` returned (`true` otherwise). -/
theorem LiftCodeIntoModule_fails_iff_define_fails (S : Stages) (FLAGS_legacy_mode : Bool)
    ( FLAGS_pc_annotation : String) (cfg_module : NativeModule) (gModule : Module) :
    ((LiftCodeIntoModule S FLAGS_legacy_mode FLAGS_pc_annotation cfg_module gModule).result
        = .returned false ↔
      (S.DefineLiftedFunctions cfg_module
        (S.AddDataSegments cfg_module (S.DeclareLiftedFunctions cfg_module
          (S.DeclareExternals cfg_module gModule)))).1 = false) ∧
    ((LiftCodeIntoModule S FLAGS_legacy_mode FLAGS_pc_annotation cfg_module gModule).result
        ≠ .aborted →
      (LiftCodeIntoModule S FLAGS_legacy_mode FLAGS_pc_annotation cfg_module gModule).result
        = .returned (S.DefineLiftedFunctions cfg_module
          (S.AddDataSegments cfg_module (S.DeclareLiftedFunctions cfg_module
            (S.DeclareExternals cfg_module gModule)))).1) := by
  have hc := lift_cases S FLAGS_legacy_mode FLAGS_pc_annotation cfg_module gModule
  simp only [moduleAtDefine] at hc
  rcases hc with ⟨hd, h⟩ | ⟨hd, h, -⟩ | ⟨hd, h, -⟩
  · rw [h, hd]; simp
  · rw [h, hd]; simp
  · rw [h, hd]; simp

/-- Witness of C1 on the function scenario: the run is not stopped and
returns `true`, the value of `DefineLiftedFunctions`. -/
theorem LiftCodeIntoModule_fails_iff_define_fails_witness :
    (LiftCodeIntoModule (idleStages true) false "" computeCfg computeModule).result
        ≠ .aborted ∧
    (LiftCodeIntoModule (idleStages true) false "" computeCfg computeModule).result
        = .returned true :=
  ⟨by decide,
   (LiftCodeIntoModule_fails_iff_define_fails (idleStages true) false "" computeCfg
      computeModule).2 (by decide)⟩

/-- C2: on a run that returns `true` the stages invoked are, in this order,
`DeclareExternals`, `DeclareLiftedFunctions`, `AddDataSegments`,
`DefineLiftedFunctions`, `ExportFunctions`, `ExportVariables`,
`CallInitFiniCode`, then `DowngradeModule` exactly when `legacy_mode` is set,
then `OptimizeModule`, then `PropagateInstAnnotations` exactly when
`pc_annotation` is not empty: the trace lists them so, and the module left is
the result of applying each of them once, in that order, each to the module
the one before it left.  On a run that ends otherwise the module is the one
the stages of the trace produced up to the early return or the fatal check.
On every run each stage is invoked at most once, every `AddDataSegments`
comes after a `DeclareLiftedFunctions`, and every `ExportVariables` comes
after an `ExportFunctions`. -/
theorem LiftCodeIntoModule_stage_order (S : Stages) (FLAGS_legacy_mode : Bool)
    ( FLAGS_pc_annotation : String) (cfg_module : NativeModule) (gModule : Module) :
    ((LiftCodeIntoModule S FLAGS_legacy_mode FLAGS_pc_annotation cfg_module gModule).result
        = .returned true →
      (LiftCodeIntoModule S FLAGS_legacy_mode FLAGS_pc_annotation cfg_module gModule).trace
        = [.DeclareExternals, .DeclareLiftedFunctions, .AddDataSegments,
           .DefineLiftedFunctions, .ExportFunctions, .ExportVariables, .CallInitFiniCode]
          ++ (if FLAGS_legacy_mode = true then [.DowngradeModule] else [])
          ++ [.OptimizeModule]
          ++ (if FLAGS_pc_annotation.isEmpty = false then [.PropagateInstAnnotations]
              else []) ∧
      (S.DefineLiftedFunctions cfg_module
        (S.AddDataSegments cfg_module (S.DeclareLiftedFunctions cfg_module
          (S.DeclareExternals cfg_module gModule)))).1 = true ∧
      ∃ m5 m6,
        ExportFunctions cfg_module
          (S.DefineLiftedFunctions cfg_module
            (S.AddDataSegments cfg_module (S.DeclareLiftedFunctions cfg_module
              (S.DeclareExternals cfg_module gModule)))).2 = .done m5 ∧
        ExportVariables cfg_module m5 = .done m6 ∧
        (LiftCodeIntoModule S FLAGS_legacy_mode FLAGS_pc_annotation cfg_module gModule).module
          = (if FLAGS_pc_annotation.isEmpty = false then S.PropagateInstAnnotations else id)
              (S.OptimizeModule
                ((if FLAGS_legacy_mode = true then S.DowngradeModule else id)
                  (S.CallInitFiniCode cfg_module m6)))) ∧
    ((LiftCodeIntoModule S FLAGS_legacy_mode FLAGS_pc_annotation cfg_module gModule).result
        = .returned false →
      (LiftCodeIntoModule S FLAGS_legacy_mode FLAGS_pc_annotation cfg_module gModule).trace
        = [.DeclareExternals, .DeclareLiftedFunctions, .AddDataSegments,
           .DefineLiftedFunctions] ∧
      (LiftCodeIntoModule S FLAGS_legacy_mode FLAGS_pc_annotation cfg_module gModule).module
        = (S.DefineLiftedFunctions cfg_module
            (S.AddDataSegments cfg_module (S.DeclareLiftedFunctions cfg_module
              (S.DeclareExternals cfg_module gModule)))).2) ∧
    ((LiftCodeIntoModule S FLAGS_legacy_mode FLAGS_pc_annotation cfg_module gModule).result
        = .aborted →
      ((LiftCodeIntoModule S FLAGS_legacy_mode FLAGS_pc_annotation cfg_module gModule).trace
          = [.DeclareExternals, .DeclareLiftedFunctions, .AddDataSegments,
             .DefineLiftedFunctions, .ExportFunctions] ∧
        ExportFunctions cfg_module
          (S.DefineLiftedFunctions cfg_module
            (S.AddDataSegments cfg_module (S.DeclareLiftedFunctions cfg_module
              (S.DeclareExternals cfg_module gModule)))).2
          = .fatal (LiftCodeIntoModule S FLAGS_legacy_mode FLAGS_pc_annotation cfg_module
              gModule).module) ∨
      ((LiftCodeIntoModule S FLAGS_legacy_mode FLAGS_pc_annotation cfg_module gModule).trace
          = [.DeclareExternals, .DeclareLiftedFunctions, .AddDataSegments,
             .DefineLiftedFunctions, .ExportFunctions, .ExportVariables] ∧
        ∃ m5,
          ExportFunctions cfg_module
            (S.DefineLiftedFunctions cfg_module
              (S.AddDataSegments cfg_module (S.DeclareLiftedFunctions cfg_module
                (S.DeclareExternals cfg_module gModule)))).2 = .done m5 ∧
          ExportVariables cfg_module m5
            = .fatal (LiftCodeIntoModule S FLAGS_legacy_mode FLAGS_pc_annotation cfg_module
                gModule).module)) ∧
    (LiftCodeIntoModule S FLAGS_legacy_mode FLAGS_pc_annotation cfg_module gModule).trace.Nodup ∧
    (∀ pre post : List Stage,
      (LiftCodeIntoModule S FLAGS_legacy_mode FLAGS_pc_annotation cfg_module gModule).trace
        = pre ++ .AddDataSegments :: post → .DeclareLiftedFunctions ∈ pre) ∧
    (∀ pre post : List Stage,
      (LiftCodeIntoModule S FLAGS_legacy_mode FLAGS_pc_annotation cfg_module gModule).trace
        = pre ++ .ExportVariables :: post → .ExportFunctions ∈ pre) := by
  obtain ⟨hn, ha, he⟩ :=
    lift_trace_facts S FLAGS_legacy_mode FLAGS_pc_annotation cfg_module gModule
  obtain ⟨hmf, hma, hmt⟩ :=
    lift_modules S FLAGS_legacy_mode FLAGS_pc_annotation cfg_module gModule
  simp only [moduleAtDefine] at hmf hma hmt
  refine ⟨?_, ?_, ?_, hn, runsOnlyAfter_sound _ _ _ ha, runsOnlyAfter_sound _ _ _ he⟩
  · intro hr
    refine ⟨?_, hmt hr⟩
    rcases lift_cases S FLAGS_legacy_mode FLAGS_pc_annotation cfg_module gModule with
      ⟨-, h⟩ | ⟨-, h, -⟩ | ⟨-, -, h⟩
    · rw [h] at hr; simp at hr
    · rw [h] at hr; simp at hr
    · rw [h]
      cases FLAGS_legacy_mode <;> cases hp : FLAGS_pc_annotation.isEmpty <;>
        simp [stagesOfSuccess, stagesToDefine, hp]
  · intro hr
    refine ⟨?_, (hmf hr).2⟩
    rcases lift_cases S FLAGS_legacy_mode FLAGS_pc_annotation cfg_module gModule with
      ⟨-, h⟩ | ⟨-, h, -⟩ | ⟨-, h, -⟩
    · rw [h]; rfl
    · rw [h] at hr; simp at hr
    · rw [h] at hr; simp at hr
  · intro hr
    rcases (hma hr).2 with ⟨h1, h2⟩ | ⟨m5, h1, h2, h3⟩
    · exact Or.inl ⟨by rw [h2]; rfl, h1⟩
    · exact Or.inr ⟨by rw [h3]; rfl, m5, h1, h2⟩

/-- Witness of C2: the function scenario lifted in legacy mode with the
annotation `pc`, by stages that leave their mark, returns `true` after all
ten stages; the marks are in the module in the order of the trace, with the
entry point `compute` between those of `DefineLiftedFunctions` and
`CallInitFiniCode`. -/
theorem LiftCodeIntoModule_stage_order_witness :
    (LiftCodeIntoModule (markingStages true) true "pc" computeCfg computeModule).result
        = .returned true ∧
    (LiftCodeIntoModule (markingStages true) true "pc" computeCfg computeModule).trace
        = [.DeclareExternals, .DeclareLiftedFunctions, .AddDataSegments,
           .DefineLiftedFunctions, .ExportFunctions, .ExportVariables, .CallInitFiniCode,
           .DowngradeModule, .OptimizeModule, .PropagateInstAnnotations] ∧
    (LiftCodeIntoModule (markingStages true) true "pc" computeCfg computeModule).module
        = { functions :=
              [lifted "sub_1000" .InternalLinkage,
               lifted "DeclareExternals" .InternalLinkage,
               lifted "DeclareLiftedFunctions" .InternalLinkage,
               lifted "AddDataSegments" .InternalLinkage,
               lifted "DefineLiftedFunctions" .InternalLinkage,
               lifted "compute" .ExternalLinkage,
               lifted "CallInitFiniCode" .InternalLinkage,
               lifted "DowngradeModule" .InternalLinkage,
               lifted "OptimizeModule" .InternalLinkage,
               lifted "PropagateInstAnnotations" .InternalLinkage],
            globals := [], lastUnique := 0 } :=
  ⟨by decide,
   ((LiftCodeIntoModule_stage_order (markingStages true) true "pc" computeCfg
      computeModule).1 (by decide)).1,
   by decide⟩

/-- C3: when `DefineLiftedFunctions` returns `false`, `LiftCodeIntoModule`
returns `false` having invoked the first four stages only (so none of
`ExportFunctions`, `ExportVariables`, `CallInitFiniCode`, `DowngradeModule`,
`OptimizeModule`, `PropagateInstAnnotations`), whatever the flags; and the
module it leaves is the one `DeclareExternals`, `DeclareLiftedFunctions`,
`AddDataSegments` and the failed `DefineLiftedFunctions` produced. -/
theorem LiftCodeIntoModule_fail_fast (S : Stages) (FLAGS_legacy_mode : Bool)
    ( FLAGS_pc_annotation : String) (cfg_module : NativeModule) (gModule : Module)
    (hfail : (S.DefineLiftedFunctions cfg_module
        (S.AddDataSegments cfg_module (S.DeclareLiftedFunctions cfg_module
          (S.DeclareExternals cfg_module gModule)))).1 = false) :
    (LiftCodeIntoModule S FLAGS_legacy_mode FLAGS_pc_annotation cfg_module gModule).result
        = .returned false ∧
    (LiftCodeIntoModule S FLAGS_legacy_mode FLAGS_pc_annotation cfg_module gModule).trace
        = [.DeclareExternals, .DeclareLiftedFunctions, .AddDataSegments,
           .DefineLiftedFunctions] ∧
    (∀ s ∈ [Stage.ExportFunctions, .ExportVariables, .CallInitFiniCode, .DowngradeModule,
            .OptimizeModule, .PropagateInstAnnotations],
      s ∉ (LiftCodeIntoModule S FLAGS_legacy_mode FLAGS_pc_annotation cfg_module
            gModule).trace) ∧
    (LiftCodeIntoModule S FLAGS_legacy_mode FLAGS_pc_annotation cfg_module gModule).module
        = (S.DefineLiftedFunctions cfg_module
            (S.AddDataSegments cfg_module (S.DeclareLiftedFunctions cfg_module
              (S.DeclareExternals cfg_module gModule)))).2 := by
  have hc := lift_cases S FLAGS_legacy_mode FLAGS_pc_annotation cfg_module gModule
  simp only [moduleAtDefine] at hc
  rcases hc with ⟨-, h⟩ | ⟨hd, -⟩ | ⟨hd, -⟩
  · rw [h]
    refine ⟨rfl, rfl, ?_, rfl⟩
    simp only [stagesToDefine]
    decide
  · rw [hfail] at hd; cases hd
  · rw [hfail] at hd; cases hd

/-- Witness of C3: the function scenario with a failing
`DefineLiftedFunctions`, in legacy mode and with an annotation. -/
theorem LiftCodeIntoModule_fail_fast_witness :
    (LiftCodeIntoModule (idleStages false) true "pc" computeCfg computeModule).result
        = .returned false ∧
    (LiftCodeIntoModule (idleStages false) true "pc" computeCfg computeModule).module
        = computeModule :=
  have h := LiftCodeIntoModule_fail_fast (idleStages false) true "pc" computeCfg
    computeModule rfl
  ⟨h.1, h.2.2.2⟩

/-- C4, refuted as stated: with an empty `pc_annotation` the function
scenario returns `true` and `OptimizeModule` is the last stage invoked, so no
stage is invoked after it; and with a failing `DefineLiftedFunctions`
`OptimizeModule` is not invoked at all. -/
theorem OptimizeModule_not_always_last_but_one :
    (LiftCodeIntoModule (idleStages true) false "" computeCfg computeModule).trace
        = [.DeclareExternals, .DeclareLiftedFunctions, .AddDataSegments,
           .DefineLiftedFunctions, .ExportFunctions, .ExportVariables, .CallInitFiniCode,
           .OptimizeModule] ∧
    (¬ ∃ (pre : List Stage) (s : Stage),
      (LiftCodeIntoModule (idleStages true) false "" computeCfg computeModule).trace
        = pre ++ [.OptimizeModule, s]) ∧
    Stage.OptimizeModule ∉
      (LiftCodeIntoModule (idleStages false) false "" computeCfg computeModule).trace := by
  have ht : (LiftCodeIntoModule (idleStages true) false "" computeCfg computeModule).trace
        = [.DeclareExternals, .DeclareLiftedFunctions, .AddDataSegments,
           .DefineLiftedFunctions, .ExportFunctions, .ExportVariables, .CallInitFiniCode,
           .OptimizeModule] := by decide
  refine ⟨ht, ?_, by decide⟩
  rintro ⟨pre, s, h⟩
  rw [ht] at h
  have h2 := congrArg List.reverse h
  simp at h2

/-- C4, amended: on a run that returns `true`, `OptimizeModule` is invoked
exactly once, after every other stage but `PropagateInstAnnotations`: the
module left is `OptimizeModule` applied once to the module `CallInitFiniCode`
(and `DowngradeModule`, in legacy mode) left, followed by
`PropagateInstAnnotations` when `pc_annotation` is not empty and by nothing
when it is empty.  On a run that does not return `true`, `OptimizeModule` is
not invoked: the module left is that of the failed `DefineLiftedFunctions` or
that of the fatal check of the export loop. -/
theorem OptimizeModule_once_before_annotations (S : Stages) (FLAGS_legacy_mode : Bool)
    ( FLAGS_pc_annotation : String) (cfg_module : NativeModule) (gModule : Module) :
    ((LiftCodeIntoModule S FLAGS_legacy_mode FLAGS_pc_annotation cfg_module gModule).result
        = .returned true →
      (LiftCodeIntoModule S FLAGS_legacy_mode FLAGS_pc_annotation cfg_module
        gModule).trace.count .OptimizeModule = 1 ∧
      (∃ pre : List Stage, Stage.OptimizeModule ∉ pre ∧
        Stage.PropagateInstAnnotations ∉ pre ∧
        (LiftCodeIntoModule S FLAGS_legacy_mode FLAGS_pc_annotation cfg_module gModule).trace
          = pre ++ [.OptimizeModule]
            ++ (if FLAGS_pc_annotation.isEmpty = false then [.PropagateInstAnnotations]
                else [])) ∧
      ∃ m5 m6,
        ExportFunctions cfg_module
          (S.DefineLiftedFunctions cfg_module
            (S.AddDataSegments cfg_module (S.DeclareLiftedFunctions cfg_module
              (S.DeclareExternals cfg_module gModule)))).2 = .done m5 ∧
        ExportVariables cfg_module m5 = .done m6 ∧
        (LiftCodeIntoModule S FLAGS_legacy_mode FLAGS_pc_annotation cfg_module gModule).module
          = (if FLAGS_pc_annotation.isEmpty = false then S.PropagateInstAnnotations else id)
              (S.OptimizeModule
                ((if FLAGS_legacy_mode = true then S.DowngradeModule else id)
                  (S.CallInitFiniCode cfg_module m6)))) ∧
    ((LiftCodeIntoModule S FLAGS_legacy_mode FLAGS_pc_annotation cfg_module gModule).result
        ≠ .returned true →
      Stage.OptimizeModule ∉
        (LiftCodeIntoModule S FLAGS_legacy_mode FLAGS_pc_annotation cfg_module
          gModule).trace ∧
      ((LiftCodeIntoModule S FLAGS_legacy_mode FLAGS_pc_annotation cfg_module gModule).module
          = (S.DefineLiftedFunctions cfg_module
              (S.AddDataSegments cfg_module (S.DeclareLiftedFunctions cfg_module
                (S.DeclareExternals cfg_module gModule)))).2 ∨
        ExportFunctions cfg_module
          (S.DefineLiftedFunctions cfg_module
            (S.AddDataSegments cfg_module (S.DeclareLiftedFunctions cfg_module
              (S.DeclareExternals cfg_module gModule)))).2
          = .fatal (LiftCodeIntoModule S FLAGS_legacy_mode FLAGS_pc_annotation cfg_module
              gModule).module ∨
        ∃ m5,
          ExportFunctions cfg_module
            (S.DefineLiftedFunctions cfg_module
              (S.AddDataSegments cfg_module (S.DeclareLiftedFunctions cfg_module
                (S.DeclareExternals cfg_module gModule)))).2 = .done m5 ∧
          ExportVariables cfg_module m5
            = .fatal (LiftCodeIntoModule S FLAGS_legacy_mode FLAGS_pc_annotation cfg_module
                gModule).module)) := by
  obtain ⟨hmf, hma, hmt⟩ :=
    lift_modules S FLAGS_legacy_mode FLAGS_pc_annotation cfg_module gModule
  simp only [moduleAtDefine] at hmf hma hmt
  have hmod : (LiftCodeIntoModule S FLAGS_legacy_mode FLAGS_pc_annotation cfg_module
        gModule).result ≠ .returned true →
      ((LiftCodeIntoModule S FLAGS_legacy_mode FLAGS_pc_annotation cfg_module gModule).module
          = (S.DefineLiftedFunctions cfg_module
              (S.AddDataSegments cfg_module (S.DeclareLiftedFunctions cfg_module
                (S.DeclareExternals cfg_module gModule)))).2 ∨
        ExportFunctions cfg_module
          (S.DefineLiftedFunctions cfg_module
            (S.AddDataSegments cfg_module (S.DeclareLiftedFunctions cfg_module
              (S.DeclareExternals cfg_module gModule)))).2
          = .fatal (LiftCodeIntoModule S FLAGS_legacy_mode FLAGS_pc_annotation cfg_module
              gModule).module ∨
        ∃ m5,
          ExportFunctions cfg_module
            (S.DefineLiftedFunctions cfg_module
              (S.AddDataSegments cfg_module (S.DeclareLiftedFunctions cfg_module
                (S.DeclareExternals cfg_module gModule)))).2 = .done m5 ∧
          ExportVariables cfg_module m5
            = .fatal (LiftCodeIntoModule S FLAGS_legacy_mode FLAGS_pc_annotation cfg_module
                gModule).module) := by
    intro hne
    cases hr : (LiftCodeIntoModule S FLAGS_legacy_mode FLAGS_pc_annotation cfg_module
        gModule).result with
    | returned b =>
      cases b with
      | true => exact absurd hr hne
      | false => exact Or.inl (hmf hr).2
    | aborted =>
      rcases (hma hr).2 with ⟨h1, -⟩ | ⟨m5, h1, h2, -⟩
      · exact Or.inr (Or.inl h1)
      · exact Or.inr (Or.inr ⟨m5, h1, h2⟩)
  rcases lift_cases S FLAGS_legacy_mode FLAGS_pc_annotation cfg_module gModule with
    ⟨-, h⟩ | ⟨-, hr, h | h⟩ | ⟨-, hr, h⟩
  · refine ⟨fun hr => by rw [h] at hr; simp at hr, fun hne => ⟨?_, hmod hne⟩⟩
    rw [h]
    simp only [stagesToDefine]; decide
  · refine ⟨fun hr2 => by rw [hr] at hr2; simp at hr2, fun hne => ⟨?_, hmod hne⟩⟩
    rw [h]
    simp only [stagesToDefine]; decide
  · refine ⟨fun hr2 => by rw [hr] at hr2; simp at hr2, fun hne => ⟨?_, hmod hne⟩⟩
    rw [h]
    simp only [stagesToDefine]; decide
  · refine ⟨fun _ => ⟨?_, ⟨stagesToDefine ++ [.ExportFunctions, .ExportVariables,
      .CallInitFiniCode] ++ (if FLAGS_legacy_mode then [.DowngradeModule] else []),
      ?_, ?_, ?_⟩, (hmt hr).2⟩, fun hne => absurd hr hne⟩
    · rw [h]
      cases FLAGS_legacy_mode <;> cases hp : FLAGS_pc_annotation.isEmpty <;>
        simp only [stagesOfSuccess, hp] <;> decide
    · cases FLAGS_legacy_mode <;> simp only [stagesToDefine] <;> decide
    · cases FLAGS_legacy_mode <;> simp only [stagesToDefine] <;> decide
    · rw [h]
      cases FLAGS_legacy_mode <;> cases hp : FLAGS_pc_annotation.isEmpty <;>
        simp [stagesOfSuccess, hp]

/-- Witness of the amended C4: the function scenario with an empty
`pc_annotation`, lifted by stages that leave their mark, returns `true`; the
mark of `OptimizeModule` is in the module once, in the last place. -/
theorem OptimizeModule_once_before_annotations_witness :
    (LiftCodeIntoModule (markingStages true) false "" computeCfg computeModule).result
        = .returned true ∧
    (LiftCodeIntoModule (markingStages true) false "" computeCfg
      computeModule).trace.count .OptimizeModule = 1 ∧
    (LiftCodeIntoModule (markingStages true) false "" computeCfg computeModule).module
        = { functions :=
              [lifted "sub_1000" .InternalLinkage,
               lifted "DeclareExternals" .InternalLinkage,
               lifted "DeclareLiftedFunctions" .InternalLinkage,
               lifted "AddDataSegments" .InternalLinkage,
               lifted "DefineLiftedFunctions" .InternalLinkage,
               lifted "compute" .ExternalLinkage,
               lifted "CallInitFiniCode" .InternalLinkage,
               lifted "OptimizeModule" .InternalLinkage],
            globals := [], lastUnique := 0 } :=
  ⟨by decide,
   ((OptimizeModule_once_before_annotations (markingStages true) false "" computeCfg
      computeModule).1 (by decide)).1,
   by decide⟩

/-! ## The lookups -/

theorem getGlobalVariable_some {m : Module} {n : String} {i : Nat}
    (h : m.getGlobalVariable n = some i) :
    firstCarrying n m.globals = some i ∧
      ∃ v, m.globals[i]? = some v ∧ v.name = n ∧ v.hasLocalLinkage = false := by
  unfold Module.getGlobalVariable at h
  by_cases hne : n = ""
  · simp [findByName, hne] at h
  · simp only [findByName, hne, if_false] at h
    cases hf : firstCarrying n m.globals with
    | none => simp [hf] at h
    | some k =>
      obtain ⟨v, hv, hvn, -⟩ := firstCarrying_some hf
      simp only [hf, hv] at h
      by_cases hl : v.hasLocalLinkage = true
      · simp [hl] at h
      · simp only [hl, Bool.false_eq_true, if_false, Option.some.injEq] at h
        subst h
        exact ⟨rfl, v, hv, hvn, by simpa using hl⟩

theorem getGlobalVariable_ne_empty {m : Module} {n : String} {i : Nat}
    (h : m.getGlobalVariable n = some i) : n ≠ "" := by
  intro hc
  simp [Module.getGlobalVariable, findByName, hc] at h

theorem getFunction_of_ne_empty (m : Module) {n : String} (h : n ≠ "") :
    m.getFunction n = firstCarrying n m.functions := by
  simp [Module.getFunction, findByName, h]

theorem getGlobalVariable_of {m : Module} {n : String} {i : Nat} {v : GlobalValue}
    (hn : n ≠ "") (hf : firstCarrying n m.globals = some i) (hv : m.globals[i]? = some v)
    (hl : v.hasLocalLinkage = false) : m.getGlobalVariable n = some i := by
  simp [Module.getGlobalVariable, findByName, hn, hf, hv, hl]

/-! ## Completion of the export loops -/

theorem exportFunction_isSome (cfg : NativeModule) (m : Module) (ea : Nat) :
    (exportFunction cfg m ea).isSome = true ↔
      ∃ cfg_func ep, cfg.funcAt ea = some cfg_func ∧
        m.getFunction cfg_func.lifted_name = some ep := by
  unfold exportFunction
  cases hf : cfg.funcAt ea with
  | none => simp
  | some cf =>
    cases hg : m.getFunction cf.lifted_name with
    | none => simp [hg]
    | some ep => simp [hg]

theorem exportVariable_isSome (cfg : NativeModule) (m : Module) (ea : Nat) :
    (exportVariable cfg m ea).isSome = true ↔
      ∃ cfg_var var, cfg.varAt ea = some cfg_var ∧
        m.getGlobalVariable cfg_var.lifted_name = some var := by
  unfold exportVariable
  cases hf : cfg.varAt ea with
  | none => simp
  | some cv =>
    cases hg : m.getGlobalVariable cv.lifted_name with
    | none => simp [hg]
    | some var => simp [hg]

/-- C7, refuted as stated: `exported_funcs` holds the unknown address `0x9999`
after the valid `0x1000`; `ExportFunctions` stops in a fatal check, and the
module at that point has the entry point `compute`, with external linkage,
which the module on entry did not have. -/
theorem ExportFunctions_abort_not_atomic :
    (0x9999 ∈ unknownCfg.exported_funcs ∧ unknownCfg.funcAt 0x9999 = none) ∧
    ExportFunctions unknownCfg computeModule = .fatal
      { functions := [lifted "sub_1000" .InternalLinkage, lifted "compute" .ExternalLinkage],
        globals := [], lastUnique := 0 } ∧
    ExportFunctions unknownCfg computeModule ≠ .fatal computeModule := by
  decide

/-- C7, amended: when `exported_funcs` holds an address absent from
`ea_to_func`, `ExportFunctions` stops in a fatal check, at that address or at
an offending one iterated before it; the module at that point is the one left
by the iterations of the addresses iterated before the stop, and the
iteration that stops and the later ones change nothing.  When the unknown
address is iterated first, the module at the stop is the module on entry. -/
theorem ExportFunctions_unknown_address (cfg_module : NativeModule) (m : Module) (ea : Nat)
    (hea : ea ∈ cfg_module.exported_funcs) (hno : cfg_module.funcAt ea = none) :
    (∃ pre bad post m1, cfg_module.exported_funcs = pre ++ bad :: post ∧ ea ∉ pre ∧
      forEachAddress (exportFunction cfg_module) pre m = .done m1 ∧
      exportFunction cfg_module m1 bad = none ∧
      ExportFunctions cfg_module m = .fatal m1) ∧
    (∀ rest, cfg_module.exported_funcs = ea :: rest →
      ExportFunctions cfg_module m = .fatal m) := by
  have hbad : ∀ m1, exportFunction cfg_module m1 ea = none := by
    intro m1; simp [exportFunction, hno]
  refine ⟨forEachAddress_fatal_of_bad _ _ ea m hea hbad, ?_⟩
  intro rest hl
  simp [ExportFunctions, hl, forEachAddress, hbad]

/-- Witness of the amended C7: the stop of the scenario with the unknown
address `0x9999`. -/
theorem ExportFunctions_unknown_address_witness :
    ∃ pre bad post m1, unknownCfg.exported_funcs = pre ++ bad :: post ∧ 0x9999 ∉ pre ∧
      forEachAddress (exportFunction unknownCfg) pre computeModule = .done m1 ∧
      exportFunction unknownCfg m1 bad = none ∧
      ExportFunctions unknownCfg computeModule = .fatal m1 :=
  (ExportFunctions_unknown_address unknownCfg computeModule 0x9999 (by decide)
    (by decide)).1

/-- C8, refuted as stated: the address `0x2000` of `exported_vars` resolves
in `ea_to_var` and the global `data_2000` its `lifted_name` names is present
in the module; it has internal linkage, `getGlobalVariable` does not return
it, and `ExportVariables` stops in the fatal check. -/
theorem ExportVariables_stops_on_internal_global :
    counterCfg.exported_vars = [0x2000] ∧
    counterCfg.varAt 0x2000 =
      some { ea := 0x2000, name := "g_counter", lifted_name := "data_2000" } ∧
    internalModule.globals[0]? = some (lifted "data_2000" .InternalLinkage) ∧
    (lifted "data_2000" .InternalLinkage).name = "data_2000" ∧
    ExportVariables counterCfg internalModule = .fatal internalModule := by
  decide

/-- C8, amended: `ExportFunctions` completes exactly when every address of
`exported_funcs` is reached (the loop has completed on the addresses before
it) and resolves, in `ea_to_func`, to a function whose `lifted_name` names a
function of the module at that moment (`getFunction` finds it);
`ExportVariables` completes exactly when every address of `exported_vars` is
reached and resolves, in `ea_to_var`, to a variable whose `lifted_name` names
a global variable of the module at that moment that does not have local
linkage (`getGlobalVariable` finds it).  At an address that does not, the
loop stops with the module as it was when the address was reached: no entry
point obtained, no global renamed or relinked for it.  The last two parts
say what the two lookups find. -/
theorem export_completes_iff_resolved (cfg_module : NativeModule) (m : Module) :
    ((∃ m', ExportFunctions cfg_module m = .done m') ↔
      ∀ pre ea post, cfg_module.exported_funcs = pre ++ ea :: post →
        ∃ m1 cfg_func ep, forEachAddress (exportFunction cfg_module) pre m = .done m1 ∧
          cfg_module.funcAt ea = some cfg_func ∧
          m1.getFunction cfg_func.lifted_name = some ep) ∧
    ((∃ m', ExportVariables cfg_module m = .done m') ↔
      ∀ pre ea post, cfg_module.exported_vars = pre ++ ea :: post →
        ∃ m1 cfg_var var, forEachAddress (exportVariable cfg_module) pre m = .done m1 ∧
          cfg_module.varAt ea = some cfg_var ∧
          m1.getGlobalVariable cfg_var.lifted_name = some var) ∧
    (∀ pre ea post m1, cfg_module.exported_funcs = pre ++ ea :: post →
      forEachAddress (exportFunction cfg_module) pre m = .done m1 →
      (¬ ∃ cfg_func ep, cfg_module.funcAt ea = some cfg_func ∧
          m1.getFunction cfg_func.lifted_name = some ep) →
      ExportFunctions cfg_module m = .fatal m1) ∧
    (∀ pre ea post m1, cfg_module.exported_vars = pre ++ ea :: post →
      forEachAddress (exportVariable cfg_module) pre m = .done m1 →
      (¬ ∃ cfg_var var, cfg_module.varAt ea = some cfg_var ∧
          m1.getGlobalVariable cfg_var.lifted_name = some var) →
      ExportVariables cfg_module m = .fatal m1) ∧
    (∀ (m1 : Module) (n : String) (ep : Nat),
      m1.getFunction n = some ep ↔ n ≠ "" ∧ firstCarrying n m1.functions = some ep) ∧
    (∀ (m1 : Module) (n : String) (var : Nat),
      m1.getGlobalVariable n = some var ↔
        n ≠ "" ∧ firstCarrying n m1.globals = some var ∧
        ∃ v, m1.globals[var]? = some v ∧ v.hasLocalLinkage = false) := by
  refine ⟨?_, ?_, ?_, ?_, ?_, ?_⟩
  · rw [ExportFunctions, forEachAddress_done_iff]
    constructor
    · intro h pre ea post hl
      obtain ⟨m1, h1, h2⟩ := h pre ea post hl
      obtain ⟨cf, ep, h3, h4⟩ := (exportFunction_isSome cfg_module m1 ea).mp h2
      exact ⟨m1, cf, ep, h1, h3, h4⟩
    · intro h pre ea post hl
      obtain ⟨m1, cf, ep, h1, h3, h4⟩ := h pre ea post hl
      exact ⟨m1, h1, (exportFunction_isSome cfg_module m1 ea).mpr ⟨cf, ep, h3, h4⟩⟩
  · rw [ExportVariables, forEachAddress_done_iff]
    constructor
    · intro h pre ea post hl
      obtain ⟨m1, h1, h2⟩ := h pre ea post hl
      obtain ⟨cv, var, h3, h4⟩ := (exportVariable_isSome cfg_module m1 ea).mp h2
      exact ⟨m1, cv, var, h1, h3, h4⟩
    · intro h pre ea post hl
      obtain ⟨m1, cv, var, h1, h3, h4⟩ := h pre ea post hl
      exact ⟨m1, h1, (exportVariable_isSome cfg_module m1 ea).mpr ⟨cv, var, h3, h4⟩⟩
  · intro pre ea post m1 hl hpre hbad
    rw [ExportFunctions, hl]
    apply forEachAddress_fatal_at _ _ _ _ _ _ hpre
    cases hb : exportFunction cfg_module m1 ea with
    | none => rfl
    | some m2 =>
      exact absurd ((exportFunction_isSome cfg_module m1 ea).mp (by simp [hb])) hbad
  · intro pre ea post m1 hl hpre hbad
    rw [ExportVariables, hl]
    apply forEachAddress_fatal_at _ _ _ _ _ _ hpre
    cases hb : exportVariable cfg_module m1 ea with
    | none => rfl
    | some m2 =>
      exact absurd ((exportVariable_isSome cfg_module m1 ea).mp (by simp [hb])) hbad
  · intro m1 n ep
    by_cases hn : n = ""
    · simp [Module.getFunction, findByName, hn]
    · simp [Module.getFunction, findByName, hn]
  · intro m1 n var
    constructor
    · intro h
      obtain ⟨hf, v, hv, -, hl⟩ := getGlobalVariable_some h
      exact ⟨getGlobalVariable_ne_empty h, hf, v, hv, hl⟩
    · rintro ⟨hn, hf, v, hv, hl⟩
      exact getGlobalVariable_of hn hf hv hl

/-- Witness of C8: `ExportFunctions` completes on the function scenario, so
its one exported address resolves when it is reached. -/
theorem export_completes_iff_resolved_witness :
    ∀ pre ea post, computeCfg.exported_funcs = pre ++ ea :: post →
      ∃ m1 cfg_func ep, forEachAddress (exportFunction computeCfg) pre computeModule
          = .done m1 ∧
        computeCfg.funcAt ea = some cfg_func ∧
        m1.getFunction cfg_func.lifted_name = some ep :=
  (export_completes_iff_resolved computeCfg computeModule).1.mp
    ⟨{ functions := [lifted "sub_1000" .InternalLinkage, lifted "compute" .ExternalLinkage],
       globals := [], lastUnique := 0 }, by decide⟩

/-! ## What one iteration changes -/

theorem setGlobalName_functions (m : Module) (i : Nat) (n : String) :
    (m.setGlobalName i n).functions = m.functions := by
  unfold Module.setGlobalName
  cases m.globals[i]? with
  | none => rfl
  | some v =>
    simp only
    split
    · rfl
    · split <;> rfl

theorem setGlobalName_getElem?_ne (m : Module) (i j : Nat) (n : String) (h : j ≠ i) :
    (m.setGlobalName i n).globals[j]? = m.globals[j]? := by
  unfold Module.setGlobalName
  cases m.globals[i]? with
  | none => rfl
  | some v =>
    simp only
    split
    · rfl
    · split <;> exact updateAt_getElem?_ne _ _ _ _ h

/-- What an iteration of `ExportFunctions` that does not stop does: it
resolves the address, and relinks either the function that carried the native
name or a new function appended under that name. -/
theorem exportFunction_some {cfg : NativeModule} {m m1 : Module} {ea : Nat}
    (h : exportFunction cfg m ea = some m1) :
    ∃ cf ep, cfg.funcAt ea = some cf ∧ (GetNativeToLiftedEntryPoint m cf).2 = ep ∧
      m1.globals = m.globals ∧ m1.lastUnique = m.lastUnique ∧
      ((firstCarrying cf.name m.functions = some ep ∧
          (GetNativeToLiftedEntryPoint m cf).1 = m ∧
          m1.functions = updateAt (fun v =>
            (v.setLinkage .ExternalLinkage).setVisibility .DefaultVisibility) ep m.functions) ∨
       (firstCarrying cf.name m.functions = none ∧ ep = m.functions.length ∧
          (GetNativeToLiftedEntryPoint m cf).1.functions =
            m.functions ++ [lifted cf.name .InternalLinkage] ∧
          m1.functions = m.functions ++ [lifted cf.name .ExternalLinkage])) := by
  unfold exportFunction at h
  cases hf : cfg.funcAt ea with
  | none => simp [hf] at h
  | some cf =>
    cases hg : m.getFunction cf.lifted_name with
    | none => simp [hf, hg] at h
    | some i =>
      simp only [hf, hg, Option.some.injEq] at h
      subst h
      cases hn : firstCarrying cf.name m.functions with
      | some ep =>
        refine ⟨cf, ep, rfl, ?_, ?_, ?_, Or.inl ⟨hn, ?_, ?_⟩⟩ <;>
          simp [GetNativeToLiftedEntryPoint, hn, Module.updFunction]
      | none =>
        refine ⟨cf, m.functions.length, rfl, ?_, ?_, ?_, Or.inr ⟨hn, rfl, ?_, ?_⟩⟩
        · simp [GetNativeToLiftedEntryPoint, hn]
        · simp [GetNativeToLiftedEntryPoint, hn, Module.updFunction]
        · simp [GetNativeToLiftedEntryPoint, hn, Module.updFunction]
        · simp [GetNativeToLiftedEntryPoint, hn, lifted]
        · simp only [GetNativeToLiftedEntryPoint, hn, Module.updFunction]
          have : ∀ (l : List GlobalValue) (f : GlobalValue → GlobalValue) (v : GlobalValue),
              updateAt f l.length (l ++ [v]) = l ++ [f v] := by
            intro l f v
            induction l with
            | nil => rfl
            | cons u us ih => simp [updateAt, ih]
          rw [this]
          rfl

/-- An iteration of `ExportFunctions` leaves alone every function that does
not carry the native name of the address. -/
theorem exportFunction_frame {cfg : NativeModule} {m m1 : Module} {ea : Nat}
    (h : exportFunction cfg m ea = some m1) :
    m1.globals = m.globals ∧
    ∃ cf, cfg.funcAt ea = some cf ∧
      ∀ (j : Nat) (v : GlobalValue), m.functions[j]? = some v → v.name ≠ cf.name → m1.functions[j]? = some v := by
  obtain ⟨cf, ep, hcf, -, hg, -, hcase⟩ := exportFunction_some h
  refine ⟨hg, cf, hcf, ?_⟩
  intro j v hj hne
  rcases hcase with ⟨hfind, -, hfun⟩ | ⟨-, -, -, hfun⟩
  · obtain ⟨w, hw, hwn, -⟩ := firstCarrying_some hfind
    have hjne : j ≠ ep := by
      rintro rfl
      rw [hj] at hw
      cases hw
      exact hne hwn
    rw [hfun, updateAt_getElem?_ne _ _ _ _ hjne, hj]
  · rw [hfun]
    have hlt : j < m.functions.length := (List.getElem?_eq_some_iff.mp hj).1
    rw [List.getElem?_append_left hlt, hj]

/-- What an iteration of `ExportVariables` that does not stop does: it
resolves the address, finds the lifted global, and changes that global only. -/
theorem exportVariable_some {cfg : NativeModule} {m m1 : Module} {ea : Nat}
    (h : exportVariable cfg m ea = some m1) :
    ∃ cv var, cfg.varAt ea = some cv ∧ m.getGlobalVariable cv.lifted_name = some var ∧
      m1 = (m.setGlobalName var cv.name).updGlobal var (fun v =>
        (v.setLinkage .ExternalLinkage).setDLLStorageClass .DLLExportStorageClass) ∧
      m1.functions = m.functions ∧
      ∀ j, j ≠ var → m1.globals[j]? = m.globals[j]? := by
  unfold exportVariable at h
  cases hf : cfg.varAt ea with
  | none => simp [hf] at h
  | some cv =>
    cases hg : m.getGlobalVariable cv.lifted_name with
    | none => simp [hf, hg] at h
    | some var =>
      simp only [hf, hg, Option.some.injEq] at h
      subst h
      refine ⟨cv, var, rfl, hg, rfl, ?_, ?_⟩
      · simp [Module.updGlobal, setGlobalName_functions]
      · intro j hj
        simp only [Module.updGlobal]
        rw [updateAt_getElem?_ne _ _ _ _ hj, setGlobalName_getElem?_ne _ _ _ _ hj]

/-- An iteration of `ExportVariables` leaves alone every global that does not
carry the lifted name of the address. -/
theorem exportVariable_frame {cfg : NativeModule} {m m1 : Module} {ea : Nat}
    (h : exportVariable cfg m ea = some m1) :
    m1.functions = m.functions ∧
    ∃ cv, cfg.varAt ea = some cv ∧
      ∀ (j : Nat) (v : GlobalValue), m.globals[j]? = some v → v.name ≠ cv.lifted_name → m1.globals[j]? = some v := by
  obtain ⟨cv, var, hcv, hvar, -, hfun, hother⟩ := exportVariable_some h
  refine ⟨hfun, cv, hcv, ?_⟩
  intro j v hj hne
  obtain ⟨-, w, hw, hwn, -⟩ := getGlobalVariable_some hvar
  have hjne : j ≠ var := by
    rintro rfl
    rw [hj] at hw
    cases hw
    exact hne hwn
  rw [hother j hjne, hj]

/-! ## The frame of the export stage -/

theorem exportFunctions_frame (cfg : NativeModule) (l : List Nat) (m m' : Module)
    (h : forEachAddress (exportFunction cfg) l m = .done m') :
    m'.globals = m.globals ∧
    ∀ (j : Nat) (v : GlobalValue), m.functions[j]? = some v →
      (∀ ea ∈ l, ∀ cf, cfg.funcAt ea = some cf → cf.name ≠ v.name) →
      m'.functions[j]? = some v := by
  induction l generalizing m with
  | nil =>
    simp only [forEachAddress, Outcome.done.injEq] at h
    subst h
    exact ⟨rfl, fun j v hj _ => hj⟩
  | cons a rest ih =>
    cases hb : exportFunction cfg m a with
    | none => simp [forEachAddress, hb] at h
    | some m1 =>
      simp only [forEachAddress, hb] at h
      obtain ⟨hg, cf, hcf, hfr⟩ := exportFunction_frame hb
      obtain ⟨hg2, hfr2⟩ := ih m1 h
      refine ⟨hg2.trans hg, ?_⟩
      intro j v hj hnot
      apply hfr2 j v
      · exact hfr j v hj (fun hc => hnot a (by simp) cf hcf hc.symm)
      · intro ea hea cf2 hcf2
        exact hnot ea (List.mem_cons_of_mem _ hea) cf2 hcf2

theorem exportVariables_frame (cfg : NativeModule) (l : List Nat) (m m' : Module)
    (h : forEachAddress (exportVariable cfg) l m = .done m') :
    m'.functions = m.functions ∧
    ∀ (j : Nat) (v : GlobalValue), m.globals[j]? = some v →
      (∀ ea ∈ l, ∀ cv, cfg.varAt ea = some cv → cv.lifted_name ≠ v.name) →
      m'.globals[j]? = some v := by
  induction l generalizing m with
  | nil =>
    simp only [forEachAddress, Outcome.done.injEq] at h
    subst h
    exact ⟨rfl, fun j v hj _ => hj⟩
  | cons a rest ih =>
    cases hb : exportVariable cfg m a with
    | none => simp [forEachAddress, hb] at h
    | some m1 =>
      simp only [forEachAddress, hb] at h
      obtain ⟨hg, cv, hcv, hfr⟩ := exportVariable_frame hb
      obtain ⟨hg2, hfr2⟩ := ih m1 h
      refine ⟨hg2.trans hg, ?_⟩
      intro j v hj hnot
      apply hfr2 j v
      · exact hfr j v hj (fun hc => hnot a (by simp) cv hcv hc.symm)
      · intro ea hea cv2 hcv2
        exact hnot ea (List.mem_cons_of_mem _ hea) cv2 hcv2

/-- C9, refuted as stated: the exported function at `0x1000` has the native
name `main`, which is also its lifted name, so its lifted body is the entry
point and the export stage gives it external linkage; the exported function
at `0x3000` has the native name `start`, the lifted name of the function at
`0x5000`, which is not exported and whose lifted body the export stage makes
externally visible all the same. -/
theorem export_stage_relinks_lifted_body :
    mainCfg.exported_funcs = [0x1000, 0x3000] ∧
    mainCfg.funcAt 0x1000 = some { ea := 0x1000, name := "main", lifted_name := "main" } ∧
    mainCfg.funcAt 0x5000 = some { ea := 0x5000, name := "entry", lifted_name := "start" } ∧
    mainModule.functions[0]? = some (lifted "main" .InternalLinkage) ∧
    mainModule.functions[2]? = some (lifted "start" .InternalLinkage) ∧
    ∃ m2, ExportFunctions mainCfg mainModule = .done m2 ∧
      ExportVariables mainCfg m2 = .done m2 ∧
      m2.functions[0]? = some (lifted "main" .ExternalLinkage) ∧
      m2.functions[2]? = some (lifted "start" .ExternalLinkage) :=
  ⟨by decide, by decide, by decide, by decide, by decide,
   { functions := [lifted "main" .ExternalLinkage, lifted "sub_3000" .InternalLinkage,
                   lifted "start" .ExternalLinkage],
     globals := [], lastUnique := 0 },
   by decide, by decide, by decide, by decide⟩

/-- C9, amended: after `ExportFunctions` and `ExportVariables`, every global
variable of the module that does not carry the lifted name of a variable of
`exported_vars` is as it was before the stage (name, linkage, DLL storage
class and visibility), and every function that does not carry the native
name of a function of `exported_funcs`, the name under which the entry point
is obtained, is as it was (name, linkage, visibility, DLL storage class); the
lifted body of an exported function, such as `sub_1000`, is one of these
functions when its lifted name is the native name of no exported function. -/
theorem export_stage_frame (cfg_module : NativeModule) (m m1 m2 : Module)
    (hf : ExportFunctions cfg_module m = .done m1)
    (hv : ExportVariables cfg_module m1 = .done m2) :
    (∀ (j : Nat) (v : GlobalValue), m.globals[j]? = some v →
      (∀ ea ∈ cfg_module.exported_vars, ∀ cfg_var, cfg_module.varAt ea = some cfg_var →
        cfg_var.lifted_name ≠ v.name) →
      m2.globals[j]? = some v) ∧
    (∀ (j : Nat) (v : GlobalValue), m.functions[j]? = some v →
      (∀ ea ∈ cfg_module.exported_funcs, ∀ cfg_func, cfg_module.funcAt ea = some cfg_func →
        cfg_func.name ≠ v.name) →
      m2.functions[j]? = some v) ∧
    (∀ ea ∈ cfg_module.exported_funcs, ∀ cfg_func, cfg_module.funcAt ea = some cfg_func →
      (∀ ea2 ∈ cfg_module.exported_funcs, ∀ cfg_func2,
        cfg_module.funcAt ea2 = some cfg_func2 → cfg_func2.name ≠ cfg_func.lifted_name) →
      ∀ (j : Nat) (v : GlobalValue), m.functions[j]? = some v →
        v.name = cfg_func.lifted_name → m2.functions[j]? = some v) := by
  obtain ⟨hg1, hfun1⟩ := exportFunctions_frame cfg_module _ m m1 hf
  obtain ⟨hf2, hglob2⟩ := exportVariables_frame cfg_module _ m1 m2 hv
  refine ⟨?_, ?_, ?_⟩
  · intro j v hj hnot
    exact hglob2 j v (by rw [hg1]; exact hj) hnot
  · intro j v hj hnot
    rw [hf2]
    exact hfun1 j v hj hnot
  · intro ea _ cf _ hnot j v hj hvn
    rw [hf2]
    exact hfun1 j v hj (fun ea2 hea2 cf2 hcf2 => by rw [hvn]; exact hnot ea2 hea2 cf2 hcf2)

/-- Witness of C9 on `stageCfg`: the lifted body `sub_1000` of the exported
function is as before the stage. -/
theorem export_stage_frame_witness :
    ExportFunctions stageCfg stageModule =
        .done { stageModuleExported with globals := stageModule.globals } ∧
    ExportVariables stageCfg { stageModuleExported with globals := stageModule.globals } =
        .done stageModuleExported ∧
    stageModuleExported.functions[0]? = some (lifted "sub_1000" .InternalLinkage) :=
  ⟨by decide, by decide,
   (export_stage_frame stageCfg stageModule
      { stageModuleExported with globals := stageModule.globals } stageModuleExported
      (by decide) (by decide)).2.1 0 (lifted "sub_1000" .InternalLinkage) (by decide)
      (by
        intro ea hea cf hcf
        simp only [stageCfg, List.mem_singleton] at hea
        subst hea
        simp only [NativeModule.funcAt, stageCfg, List.lookup] at hcf
        simp at hcf
        subst hcf
        decide)⟩

/-! ## Entry points -/

theorem updateAt_map_name (f : GlobalValue → GlobalValue) (hf : ∀ v, (f v).name = v.name)
    (i : Nat) (l : List GlobalValue) :
    (updateAt f i l).map (fun v => v.name) = l.map (fun v => v.name) := by
  induction l generalizing i with
  | nil => simp [updateAt]
  | cons v vs ih => cases i <;> simp [updateAt, ih, hf]

theorem index_unique_of_nodup (l : List GlobalValue)
    (hn : (l.map (fun v => v.name)).Nodup) (i j : Nat) (a b : GlobalValue)
    (hi : l[i]? = some a) (hj : l[j]? = some b) (hab : a.name = b.name) : i = j := by
  induction l generalizing i j with
  | nil => simp at hi
  | cons v vs ih =>
    simp only [List.map_cons, List.nodup_cons, List.mem_map, not_exists, not_and] at hn
    cases i with
    | zero =>
      cases j with
      | zero => rfl
      | succ j =>
        simp only [List.getElem?_cons_zero, Option.some.injEq] at hi
        simp only [List.getElem?_cons_succ] at hj
        exact absurd (hab ▸ hi ▸ rfl : b.name = v.name)
          (hn.1 b (List.getElem?_mem hj))
    | succ i =>
      cases j with
      | zero =>
        simp only [List.getElem?_cons_zero, Option.some.injEq] at hj
        simp only [List.getElem?_cons_succ] at hi
        exact absurd (hab ▸ hj ▸ rfl : a.name = v.name)
          (hn.1 a (List.getElem?_mem hi))
      | succ j =>
        simp only [List.getElem?_cons_succ] at hi hj
        rw [ih hn.2 i j hi hj]

/-- An iteration of `ExportFunctions` keeps every function at its position
and under its name, keeps an externally visible function externally visible,
keeps the result of every successful lookup, and keeps the names of the
functions pairwise distinct. -/
theorem exportFunction_stable {cfg : NativeModule} {m m1 : Module} {ea : Nat}
    (h : exportFunction cfg m ea = some m1) :
    (∀ (j : Nat) (v : GlobalValue), m.functions[j]? = some v →
      ∃ v', m1.functions[j]? = some v' ∧ v'.name = v.name ∧
        (v.linkage = .ExternalLinkage ∧ v.visibility = .DefaultVisibility →
          v'.linkage = .ExternalLinkage ∧ v'.visibility = .DefaultVisibility)) ∧
    (∀ (n : String) (i : Nat), firstCarrying n m.functions = some i →
      firstCarrying n m1.functions = some i) ∧
    ((m.functions.map (fun v => v.name)).Nodup →
      (m1.functions.map (fun v => v.name)).Nodup) := by
  obtain ⟨cf, ep, -, -, -, -, hcase⟩ := exportFunction_some h
  rcases hcase with ⟨-, -, hfun⟩ | ⟨hnone, -, -, hfun⟩
  · refine ⟨?_, ?_, ?_⟩
    · intro j v hj
      by_cases hje : j = ep
      · subst hje
        refine ⟨_, by rw [hfun, updateAt_getElem?_eq, hj]; rfl, ?_, ?_⟩
        · simp [GlobalValue.setLinkage, GlobalValue.setVisibility, isLocalLinkage]
        · intro _
          simp [GlobalValue.setLinkage, GlobalValue.setVisibility, isLocalLinkage]
      · exact ⟨v, by rw [hfun, updateAt_getElem?_ne _ _ _ _ hje, hj], rfl, id⟩
    · intro n i hi
      rw [hfun, firstCarrying_updateAt _ _ _ (fun v _ => by
        simp [GlobalValue.setLinkage, GlobalValue.setVisibility, isLocalLinkage])]
      exact hi
    · intro hn
      rw [hfun, updateAt_map_name _ (fun v => by
        simp [GlobalValue.setLinkage, GlobalValue.setVisibility, isLocalLinkage])]
      exact hn
  · refine ⟨?_, ?_, ?_⟩
    · intro j v hj
      have hlt : j < m.functions.length := (List.getElem?_eq_some_iff.mp hj).1
      exact ⟨v, by rw [hfun, List.getElem?_append_left hlt, hj], rfl, id⟩
    · intro n i hi
      rw [hfun]
      exact firstCarrying_append_some _ hi
    · intro hn
      rw [hfun]
      simp only [List.map_append, List.map_cons, List.map_nil]
      refine List.Nodup.append hn (List.nodup_singleton _) ?_
      intro x hx hx2
      simp only [List.mem_singleton] at hx2
      subst hx2
      obtain ⟨v, hv, hvn⟩ := List.mem_map.mp hx
      exact firstCarrying_none.mp hnone v hv hvn

theorem exportFunctions_stable (cfg : NativeModule) (l : List Nat) (m m' : Module)
    (h : forEachAddress (exportFunction cfg) l m = .done m') :
    (∀ (j : Nat) (v : GlobalValue), m.functions[j]? = some v →
      ∃ v', m'.functions[j]? = some v' ∧ v'.name = v.name ∧
        (v.linkage = .ExternalLinkage ∧ v.visibility = .DefaultVisibility →
          v'.linkage = .ExternalLinkage ∧ v'.visibility = .DefaultVisibility)) ∧
    (∀ (n : String) (i : Nat), firstCarrying n m.functions = some i →
      firstCarrying n m'.functions = some i) ∧
    ((m.functions.map (fun v => v.name)).Nodup →
      (m'.functions.map (fun v => v.name)).Nodup) := by
  induction l generalizing m with
  | nil =>
    simp only [forEachAddress, Outcome.done.injEq] at h
    subst h
    exact ⟨fun j v hj => ⟨v, hj, rfl, id⟩, fun _ _ hi => hi, id⟩
  | cons a rest ih =>
    cases hb : exportFunction cfg m a with
    | none => simp [forEachAddress, hb] at h
    | some m1 =>
      simp only [forEachAddress, hb] at h
      obtain ⟨s1, s2, s3⟩ := exportFunction_stable hb
      obtain ⟨r1, r2, r3⟩ := ih m1 h
      refine ⟨?_, fun n i hi => r2 n i (s2 n i hi), fun hn => r3 (s3 hn)⟩
      intro j v hj
      obtain ⟨v1, hv1, hn1, he1⟩ := s1 j v hj
      obtain ⟨v2, hv2, hn2, he2⟩ := r1 j v1 hv1
      exact ⟨v2, hv2, hn2.trans hn1, fun hx => he2 (he1 hx)⟩

/-- The entry point of an iteration of `ExportFunctions`: once the iteration
is over, it is what the lookup of the native name finds, it carries the
native name, as it did when it was obtained, and it is externally visible. -/
theorem exportFunction_entry {cfg : NativeModule} {m m1 : Module} {ea : Nat}
    {cf : NativeObject} (h : exportFunction cfg m ea = some m1)
    (hcf : cfg.funcAt ea = some cf) :
    firstCarrying cf.name m1.functions = some (GetNativeToLiftedEntryPoint m cf).2 ∧
    (∃ v0, (GetNativeToLiftedEntryPoint m cf).1.functions[(GetNativeToLiftedEntryPoint m cf).2]?
        = some v0 ∧ v0.name = cf.name) ∧
    ∃ v, m1.functions[(GetNativeToLiftedEntryPoint m cf).2]? = some v ∧ v.name = cf.name ∧
      v.linkage = .ExternalLinkage ∧ v.visibility = .DefaultVisibility := by
  obtain ⟨cf2, ep, hcf2, hep, -, -, hcase⟩ := exportFunction_some h
  rw [hcf] at hcf2
  cases hcf2
  rw [hep]
  rcases hcase with ⟨hfind, hsame, hfun⟩ | ⟨hnone, hlen, hget, hfun⟩
  · obtain ⟨w, hw, hwn, -⟩ := firstCarrying_some hfind
    refine ⟨?_, ⟨w, by rw [hsame]; exact hw, hwn⟩, ?_⟩
    · rw [hfun, firstCarrying_updateAt _ _ _ (fun v _ => by
        simp [GlobalValue.setLinkage, GlobalValue.setVisibility, isLocalLinkage])]
      exact hfind
    · refine ⟨_, by rw [hfun, updateAt_getElem?_eq, hw]; rfl, ?_, ?_, ?_⟩ <;>
        simp [GlobalValue.setLinkage, GlobalValue.setVisibility, isLocalLinkage, hwn]
  · subst hlen
    refine ⟨?_, ⟨lifted cf.name .InternalLinkage, by rw [hget]; simp, rfl⟩, ?_⟩
    · rw [hfun]
      exact firstCarrying_append_none _ hnone rfl
    · exact ⟨lifted cf.name .ExternalLinkage, by rw [hfun]; simp, rfl, rfl, rfl⟩

/-- C6: after `ExportFunctions`, for every address of `exported_funcs` (its
`NativeFunction` and its lifted declaration were found, or the loop would
have stopped), the module has a function that carries the function's native
name, the entry point, which `getFunction` finds under that name when the
name is not empty: it has external linkage and default visibility; it is the
function `GetNativeToLiftedEntryPoint` returned when the address was
iterated, under the name it had then, which is the native name; and when the
functions of the module on entry have pairwise distinct names, as in a symbol
table, no other function of the module carries the native name. -/
theorem ExportFunctions_entry_point (cfg_module : NativeModule) (m m' : Module) (ea : Nat)
    (cfg_func : NativeObject) (h : ExportFunctions cfg_module m = .done m')
    (hea : ea ∈ cfg_module.exported_funcs) (hcf : cfg_module.funcAt ea = some cfg_func) :
    ∃ ep v, firstCarrying cfg_func.name m'.functions = some ep ∧
      (cfg_func.name ≠ "" → m'.getFunction cfg_func.name = some ep) ∧
      m'.functions[ep]? = some v ∧
      v.name = cfg_func.name ∧
      v.linkage = .ExternalLinkage ∧ v.visibility = .DefaultVisibility ∧
      (∀ pre post m1, cfg_module.exported_funcs = pre ++ ea :: post →
        forEachAddress (exportFunction cfg_module) pre m = .done m1 →
        (GetNativeToLiftedEntryPoint m1 cfg_func).2 = ep ∧
        ∃ v0, (GetNativeToLiftedEntryPoint m1 cfg_func).1.functions[ep]? = some v0 ∧
          v0.name = v.name) ∧
      ((m.functions.map (fun f => f.name)).Nodup →
        ∀ (j : Nat) (w : GlobalValue), m'.functions[j]? = some w →
          w.name = cfg_func.name → j = ep) := by
  -- what holds at any iteration of `ea`
  have key : ∀ pre post m1, cfg_module.exported_funcs = pre ++ ea :: post →
      forEachAddress (exportFunction cfg_module) pre m = .done m1 →
      firstCarrying cfg_func.name m'.functions =
        some (GetNativeToLiftedEntryPoint m1 cfg_func).2 ∧
      (∃ v0, (GetNativeToLiftedEntryPoint m1 cfg_func).1.functions[
          (GetNativeToLiftedEntryPoint m1 cfg_func).2]? = some v0 ∧ v0.name = cfg_func.name) ∧
      ∃ v, m'.functions[(GetNativeToLiftedEntryPoint m1 cfg_func).2]? = some v ∧
        v.name = cfg_func.name ∧
        v.linkage = .ExternalLinkage ∧ v.visibility = .DefaultVisibility := by
    intro pre post m1 hl hpre
    have h2 := h
    rw [ExportFunctions, hl, forEachAddress_append, hpre] at h2
    simp only at h2
    cases hb : exportFunction cfg_module m1 ea with
    | none => simp [forEachAddress, hb] at h2
    | some m2 =>
      simp only [forEachAddress, hb] at h2
      obtain ⟨e1, e2, v, hv, hvn, hvl, hvv⟩ := exportFunction_entry hb hcf
      obtain ⟨r1, r2, -⟩ := exportFunctions_stable cfg_module post m2 m' h2
      obtain ⟨v', hv', hn', he'⟩ := r1 _ v hv
      exact ⟨r2 _ _ e1, e2, v', hv', hn'.trans hvn, he' ⟨hvl, hvv⟩⟩
  obtain ⟨pre, post, hl⟩ := List.append_of_mem hea
  obtain ⟨m1, hpre, -⟩ :=
    (forEachAddress_done_iff (exportFunction cfg_module) cfg_module.exported_funcs m).mp
      ⟨m', h⟩ pre ea post hl
  obtain ⟨k1, -, v, hv, hvn, hvl, hvv⟩ := key pre post m1 hl hpre
  refine ⟨_, v, k1, fun hne => by rw [getFunction_of_ne_empty _ hne]; exact k1,
    hv, hvn, hvl, hvv, ?_, ?_⟩
  · intro pre2 post2 m2 hl2 hpre2
    obtain ⟨k1', ⟨v0, hv0, hv0n⟩, -⟩ := key pre2 post2 m2 hl2 hpre2
    have heq : (GetNativeToLiftedEntryPoint m2 cfg_func).2 =
        (GetNativeToLiftedEntryPoint m1 cfg_func).2 := by
      rw [k1] at k1'
      exact (Option.some.inj k1').symm
    refine ⟨heq, v0, ?_, hv0n.trans hvn.symm⟩
    rw [← heq]
    exact hv0
  · intro hn j w hw hwn
    have hn' := (exportFunctions_stable cfg_module _ m m' h).2.2 hn
    exact index_unique_of_nodup _ hn' j _ w v hw hv (hwn.trans hvn.symm)

/-- Witness of C6, the function scenario: after `ExportFunctions` the module
has the externally visible entry point `compute`. -/
theorem ExportFunctions_entry_point_witness :
    ∃ ep v, (Module.mk [lifted "sub_1000" .InternalLinkage, lifted "compute" .ExternalLinkage]
        [] 0).getFunction "compute" = some ep ∧
      (Module.mk [lifted "sub_1000" .InternalLinkage, lifted "compute" .ExternalLinkage]
        [] 0).functions[ep]? = some v ∧
      v.name = "compute" ∧
      v.linkage = .ExternalLinkage ∧ v.visibility = .DefaultVisibility :=
  have h := ExportFunctions_entry_point computeCfg computeModule
    (Module.mk [lifted "sub_1000" .InternalLinkage, lifted "compute" .ExternalLinkage] [] 0)
    0x1000 { ea := 0x1000, name := "compute", lifted_name := "sub_1000" }
    (by decide) (by decide) (by decide)
  match h with
  | ⟨ep, v, _, h1, h2, h3, h4, h5, _⟩ => ⟨ep, v, h1 (by decide), h2, h3, h4, h5⟩

/-! ## Renames that do not interfere -/

theorem updateAt_updateAt (f g : GlobalValue → GlobalValue) (i : Nat) (l : List GlobalValue) :
    updateAt g i (updateAt f i l) = updateAt (fun v => g (f v)) i l := by
  induction l generalizing i with
  | nil => simp [updateAt]
  | cons v vs ih => cases i <;> simp [updateAt, ih]

theorem updateAt_congr (f g : GlobalValue → GlobalValue) (i : Nat) (l : List GlobalValue)
    (h : ∀ v, l[i]? = some v → f v = g v) : updateAt f i l = updateAt g i l := by
  induction l generalizing i with
  | nil => simp [updateAt]
  | cons v vs ih =>
    cases i with
    | zero => simp [updateAt, h v (by simp)]
    | succ i => simp [updateAt, ih i (fun w hw => h w (by simpa using hw))]

theorem updateAt_id (i : Nat) (l : List GlobalValue) : updateAt (fun v => v) i l = l := by
  induction l generalizing i with
  | nil => simp [updateAt]
  | cons v vs ih => cases i <;> simp [updateAt, ih]

theorem takenByOther_false {m : Module} {i : Nat} {s : String} :
    m.takenByOther i s = false ↔
      s = "" ∨
      ((∀ f ∈ m.functions, f.name ≠ s) ∧
        ∀ (j : Nat) (w : GlobalValue), j ≠ i → m.globals[j]? = some w → w.name ≠ s) := by
  unfold Module.takenByOther
  by_cases hs : s = ""
  · subst hs
    simp
  · have hb : (s != "") = true := by simpa using hs
    rw [hb, Bool.true_and]
    simp only [Bool.or_eq_false_iff, List.any_eq_false, beq_iff_eq, hs, false_or]
    constructor
    · rintro ⟨h1, h2⟩
      refine ⟨h1, fun j w hj hw => h2 w ?_⟩
      exact List.mem_eraseIdx_iff_getElem?.mpr ⟨j, hj, hw⟩
    · rintro ⟨h1, h2⟩
      refine ⟨h1, fun w hw => ?_⟩
      obtain ⟨j, hj, hjw⟩ := List.mem_eraseIdx_iff_getElem?.mp hw
      exact h2 j w hj hjw

/-- When the new name is free, `setName` stores it. -/
theorem setGlobalName_free {m : Module} {i : Nat} {n : String}
    (h : m.takenByOther i n = false) :
    m.setGlobalName i n =
      { m with globals := updateAt (fun w => { w with name := n }) i m.globals } := by
  unfold Module.setGlobalName
  cases hv : m.globals[i]? with
  | none =>
    simp only
    rw [updateAt_of_none _ _ _ hv]
  | some v =>
    simp only
    by_cases hn : v.name = n
    · simp only [hn, if_true]
      have : updateAt (fun w => ({ w with name := n } : GlobalValue)) i m.globals
          = updateAt (fun w => w) i m.globals := by
        apply updateAt_congr
        intro w hw
        rw [hv] at hw
        cases hw
        cases v
        simp only at hn
        simp [hn]
      rw [this, updateAt_id]
    · simp [hn, h]

/-- An iteration of `ExportVariables` on an address whose native name is
free: the lifted global becomes the exported form, and nothing else changes. -/
theorem exportVariable_free {cfg : NativeModule} {m : Module} {ea : Nat} {cv : NativeObject}
    {var : Nat} (hcv : cfg.varAt ea = some cv)
    (hvar : m.getGlobalVariable cv.lifted_name = some var)
    (hfree : m.takenByOther var cv.name = false) :
    ∃ m1 v, exportVariable cfg m ea = some m1 ∧ m.globals[var]? = some v ∧
      v.name = cv.lifted_name ∧ v.hasLocalLinkage = false ∧
      m1.globals[var]? = some (v.exportedAs cv.name) ∧
      (∀ j, j ≠ var → m1.globals[j]? = m.globals[j]?) ∧
      m1.functions = m.functions ∧ m1.lastUnique = m.lastUnique := by
  obtain ⟨-, v, hv, hvn, hvl⟩ := getGlobalVariable_some hvar
  refine ⟨(m.setGlobalName var cv.name).updGlobal var (fun v =>
      (v.setLinkage .ExternalLinkage).setDLLStorageClass .DLLExportStorageClass), v,
    by simp [exportVariable, hcv, hvar], hv, hvn, hvl, ?_, ?_, ?_, ?_⟩
  · simp only [Module.updGlobal, setGlobalName_free hfree]
    rw [updateAt_updateAt, updateAt_getElem?_eq, hv]
    rfl
  · intro j hj
    simp only [Module.updGlobal]
    rw [updateAt_getElem?_ne _ _ _ _ hj, setGlobalName_getElem?_ne _ _ _ _ hj]
  · simp [Module.updGlobal, setGlobalName_functions]
  · simp [Module.updGlobal, setGlobalName_free hfree]

theorem exportedAs_name (v : GlobalValue) (n : String) : (v.exportedAs n).name = n := by
  simp [GlobalValue.exportedAs, GlobalValue.setLinkage, GlobalValue.setDLLStorageClass,
    isLocalLinkage]

theorem exportedAs_linkage (v : GlobalValue) (n : String) :
    (v.exportedAs n).linkage = .ExternalLinkage ∧
    (v.exportedAs n).dllStorageClass = .DLLExportStorageClass ∧
    (v.exportedAs n).hasLocalLinkage = false := by
  simp [GlobalValue.exportedAs, GlobalValue.setLinkage, GlobalValue.setDLLStorageClass,
    isLocalLinkage, GlobalValue.hasLocalLinkage]

/-- A lookup that an iteration of `ExportVariables` does not concern gives
the same global after the iteration. -/
theorem getGlobalVariable_after_rename {m m1 : Module} {var i : Nat} {v : GlobalValue}
    {na n : String} (hv : m.globals[var]? = some v)
    (h1 : m1.globals[var]? = some (v.exportedAs na))
    (hother : ∀ j, j ≠ var → m1.globals[j]? = m.globals[j]?)
    (hlook : m.getGlobalVariable n = some i) (hne1 : n ≠ v.name) (hne2 : n ≠ na) :
    m1.getGlobalVariable n = some i ∧ i ≠ var := by
  obtain ⟨hfind, w, hw, hwn, hwl⟩ := getGlobalVariable_some hlook
  obtain ⟨w2, hw2, -, hmin⟩ := firstCarrying_some hfind
  have hiv : i ≠ var := by
    rintro rfl
    rw [hv] at hw
    cases hw
    exact hne1 hwn.symm
  refine ⟨getGlobalVariable_of (v := w) (getGlobalVariable_ne_empty hlook) ?_
    (by rw [hother i hiv]; exact hw) hwl, hiv⟩
  apply firstCarrying_of_first (v := w) (by rw [hother i hiv]; exact hw) hwn
  intro j u hj hu
  by_cases hjv : j = var
  · subst hjv
    rw [h1] at hu
    cases hu
    rw [exportedAs_name]
    exact fun hc => hne2 hc.symm
  · rw [hother j hjv] at hu
    exact hmin j u hj hu

/-- Under the proviso, the first iteration of `ExportVariables` does not
stop, gives its lifted global the exported form, changes nothing else, and
leaves the proviso true of the addresses that remain, with the same lifted
globals. -/
theorem ExportReady.step {cfg : NativeModule} {a : Nat} {rest : List Nat} {m : Module}
    (h : ExportReady cfg (a :: rest) m) :
    ∃ cv var v m1, cfg.varAt a = some cv ∧ m.getGlobalVariable cv.lifted_name = some var ∧
      m.globals[var]? = some v ∧ exportVariable cfg m a = some m1 ∧
      m1.globals[var]? = some (v.exportedAs cv.name) ∧
      (∀ j, j ≠ var → m1.globals[j]? = m.globals[j]?) ∧
      m1.functions = m.functions ∧ m1.lastUnique = m.lastUnique ∧
      (∀ ea ∈ rest, ∀ cv2 i, cfg.varAt ea = some cv2 →
        m.getGlobalVariable cv2.lifted_name = some i →
        m1.getGlobalVariable cv2.lifted_name = some i ∧ i ≠ var) ∧
      ExportReady cfg rest m1 := by
  obtain ⟨cv, var, hcv, hvar⟩ := h.resolved a (by simp)
  have hfree := h.names_free a (by simp) cv var hcv hvar
  obtain ⟨m1, v, hstep, hv, hvn, -, h1, hother, hfun, hlast⟩ :=
    @exportVariable_free cfg m a cv var hcv hvar hfree
  have hnd := List.nodup_cons.mp h.nodup
  have hkeep : ∀ ea ∈ rest, ∀ cv2 i, cfg.varAt ea = some cv2 →
      m.getGlobalVariable cv2.lifted_name = some i →
      m1.getGlobalVariable cv2.lifted_name = some i ∧ i ≠ var := by
    intro ea hea cv2 i hcv2 hi
    have hane : a ≠ ea := fun hc => hnd.1 (hc ▸ hea)
    have hl : cv2.lifted_name ≠ v.name := by
      rw [hvn]
      intro hc
      exact hane (h.lifted_distinct a (by simp) ea (List.mem_cons_of_mem _ hea) cv cv2 hcv hcv2
        hc.symm)
    obtain ⟨-, w, hw, hwn, -⟩ := getGlobalVariable_some hi
    have hiv : i ≠ var := by
      rintro rfl
      rw [hv] at hw
      cases hw
      exact hl hwn.symm
    have hn : cv2.lifted_name ≠ cv.name := by
      rcases takenByOther_false.mp hfree with he | hf
      · rw [he]
        exact getGlobalVariable_ne_empty hi
      · rw [← hwn]
        exact hf.2 i w hiv hw
    exact getGlobalVariable_after_rename hv h1 hother hi hl hn
  refine ⟨cv, var, v, m1, hcv, hvar, hv, hstep, h1, hother, hfun, hlast, hkeep, ?_⟩
  refine ⟨hnd.2, ?_, ?_, ?_, ?_⟩
  · intro ea hea
    obtain ⟨cv2, i, hcv2, hi⟩ := h.resolved ea (List.mem_cons_of_mem _ hea)
    exact ⟨cv2, i, hcv2, (hkeep ea hea cv2 i hcv2 hi).1⟩
  · intro ea1 h1 ea2 h2
    exact h.lifted_distinct ea1 (List.mem_cons_of_mem _ h1) ea2 (List.mem_cons_of_mem _ h2)
  · intro ea1 h1 ea2 h2
    exact h.names_distinct ea1 (List.mem_cons_of_mem _ h1) ea2 (List.mem_cons_of_mem _ h2)
  · intro ea hea cv2 i2 hcv2 hi2
    obtain ⟨cv3, i, hcv3, hi⟩ := h.resolved ea (List.mem_cons_of_mem _ hea)
    rw [hcv2] at hcv3
    cases hcv3
    obtain ⟨hi1, hiv⟩ := hkeep ea hea cv2 i hcv2 hi
    rw [hi2] at hi1
    cases hi1
    apply takenByOther_false.mpr
    rcases takenByOther_false.mp
      (h.names_free ea (List.mem_cons_of_mem _ hea) cv2 i2 hcv2 hi) with he | hfree2
    · exact Or.inl he
    refine Or.inr ⟨by rw [hfun]; exact hfree2.1, ?_⟩
    intro j w hj hw
    by_cases hjv : j = var
    · subst hjv
      rw [h1] at hw
      cases hw
      rw [exportedAs_name]
      intro hc
      have hane : a ≠ ea := fun hc2 => hnd.1 (hc2 ▸ hea)
      exact hane (h.names_distinct a (by simp) ea (List.mem_cons_of_mem _ hea) cv cv2 hcv hcv2
        hc)
    · rw [hother j hjv] at hw
      exact hfree2.2 j w hj hw

/-- Under the proviso `ExportVariables` completes, and the module it leaves
is described global by global: the lifted global of each address has the
exported form under the native name, every other global, every function and
the counter of the symbol table are as on entry. -/
theorem exportVariables_ready (cfg : NativeModule) (l : List Nat) (m : Module)
    (h : ExportReady cfg l m) :
    ∃ m', forEachAddress (exportVariable cfg) l m = .done m' ∧
      m'.functions = m.functions ∧ m'.lastUnique = m.lastUnique ∧
      (∀ ea ∈ l, ∀ cv var v, cfg.varAt ea = some cv →
        m.getGlobalVariable cv.lifted_name = some var → m.globals[var]? = some v →
        m'.globals[var]? = some (v.exportedAs cv.name)) ∧
      (∀ j, (∀ ea ∈ l, ∀ cv, cfg.varAt ea = some cv →
          m.getGlobalVariable cv.lifted_name ≠ some j) →
        m'.globals[j]? = m.globals[j]?) := by
  induction l generalizing m with
  | nil =>
    exact ⟨m, rfl, rfl, rfl, fun ea hea => absurd hea (List.not_mem_nil ea), fun _ _ => rfl⟩
  | cons a rest ih =>
    obtain ⟨cv, var, v, m1, hcv, hvar, hv, hstep, h1, hother, hfun, hlast, hkeep, hready⟩ :=
      h.step
    obtain ⟨m', hrun, hfun', hlast', htouched, huntouched⟩ := ih m1 hready
    refine ⟨m', by simp [forEachAddress, hstep, hrun], hfun'.trans hfun, hlast'.trans hlast,
      ?_, ?_⟩
    · intro ea hea cv2 var2 v2 hcv2 hvar2 hv2
      rcases List.mem_cons.mp hea with rfl | hea
      · rw [hcv] at hcv2
        cases hcv2
        rw [hvar] at hvar2
        cases hvar2
        rw [hv] at hv2
        cases hv2
        rw [huntouched var, h1]
        intro ea2 hea2 cv3 hcv3 hc
        obtain ⟨cv4, i, hcv4, hi⟩ := h.resolved ea2 (List.mem_cons_of_mem _ hea2)
        rw [hcv3] at hcv4
        cases hcv4
        obtain ⟨hi1, hiv⟩ := hkeep ea2 hea2 cv3 i hcv3 hi
        rw [hc] at hi1
        cases hi1
        exact hiv rfl
      · obtain ⟨hi1, hiv⟩ := hkeep ea hea cv2 var2 hcv2 hvar2
        exact htouched ea hea cv2 var2 v2 hcv2 hi1 (by rw [hother var2 hiv]; exact hv2)
    · intro j hj
      have hjv : j ≠ var := by
        rintro rfl
        exact hj a (by simp) cv hcv hvar
      rw [← hother j hjv]
      apply huntouched
      intro ea hea cv2 hcv2 hc
      obtain ⟨cv3, i, hcv3, hi⟩ := h.resolved ea (List.mem_cons_of_mem _ hea)
      rw [hcv2] at hcv3
      cases hcv3
      obtain ⟨hi1, -⟩ := hkeep ea hea cv2 i hcv2 hi
      rw [hc] at hi1
      cases hi1
      exact hj ea (List.mem_cons_of_mem _ hea) cv2 hcv2 hi

theorem ExportReady.perm {cfg : NativeModule} {l1 l2 : List Nat} {m : Module}
    (h : ExportReady cfg l1 m) (hp : l1.Perm l2) : ExportReady cfg l2 m where
  nodup := hp.nodup_iff.mp h.nodup
  resolved := fun ea hea => h.resolved ea (hp.mem_iff.mpr hea)
  lifted_distinct := fun ea1 h1 ea2 h2 =>
    h.lifted_distinct ea1 (hp.mem_iff.mpr h1) ea2 (hp.mem_iff.mpr h2)
  names_distinct := fun ea1 h1 ea2 h2 =>
    h.names_distinct ea1 (hp.mem_iff.mpr h1) ea2 (hp.mem_iff.mpr h2)
  names_free := fun ea hea => h.names_free ea (hp.mem_iff.mpr hea)

/-! ## The renames of `ExportVariables` -/

/-- C5, refuted as stated: the variable at `0x2000` resolves, its lifted
global is in the module under the lifted name `g_counter`, which is also its
native name; `ExportVariables` completes, and the lookup of the lifted name
still finds that global. -/
theorem ExportVariables_rename_not_exclusive :
    0x2000 ∈ sameNameCfg.exported_vars ∧
    sameNameCfg.varAt 0x2000 =
      some { ea := 0x2000, name := "g_counter", lifted_name := "g_counter" } ∧
    sameNameModule.getGlobalVariable "g_counter" = some 0 ∧
    ∃ m', ExportVariables sameNameCfg sameNameModule = .done m' ∧
      m'.getGlobalVariable "g_counter" = some 0 :=
  ⟨by decide, by decide, by decide,
   { functions := [],
     globals := [(lifted "g_counter" .ExternalLinkage).exportedAs "g_counter"],
     lastUnique := 0 }, by decide, by decide⟩

/-- Two exported variables with one native name: the second rename meets the
name in the symbol table, and the second global ends under `g_counter.1`, not
under its native name. -/
theorem ExportVariables_shared_native_name :
    ExportVariables sharedNameCfg sharedNameModule = .done
      { functions := [],
        globals := [(lifted "data_2000" .ExternalLinkage).exportedAs "g_counter",
                    (lifted "data_3000" .ExternalLinkage).exportedAs "g_counter.1"],
        lastUnique := 1 } := by
  decide

/-- C5, amended: under the proviso `ExportReady` (the exported addresses
resolve and their lifted globals are found; lifted names pairwise distinct,
native names pairwise distinct, no native name held by another value of the
symbol table), for every address of `exported_vars` whose native name is not
empty and is not its lifted name, and whose lifted global is the only global
of the module under the lifted name, `ExportVariables` completes and the
lifted global is in the module under the native name, with external linkage
and the DLL-export storage class; the lookup of the native name finds it, no
global of the module is left under the lifted name, and the lookup of the
lifted name finds nothing. -/
theorem ExportVariables_rename_exclusive (cfg_module : NativeModule) (m : Module) (ea : Nat)
    (cfg_var : NativeObject) (var : Nat)
    (hready : ExportReady cfg_module cfg_module.exported_vars m)
    (hea : ea ∈ cfg_module.exported_vars) (hcv : cfg_module.varAt ea = some cfg_var)
    (hvar : m.getGlobalVariable cfg_var.lifted_name = some var)
    (hnonempty : cfg_var.name ≠ "")
    (hne : cfg_var.name ≠ cfg_var.lifted_name)
    (honly : ∀ (j : Nat) (w : GlobalValue), m.globals[j]? = some w →
      w.name = cfg_var.lifted_name → j = var) :
    ∃ m' v, ExportVariables cfg_module m = .done m' ∧ m'.globals[var]? = some v ∧
      v.name = cfg_var.name ∧ v.linkage = .ExternalLinkage ∧
      v.dllStorageClass = .DLLExportStorageClass ∧
      m'.getGlobalVariable cfg_var.name = some var ∧
      (∀ (j : Nat) (w : GlobalValue), m'.globals[j]? = some w →
        w.name ≠ cfg_var.lifted_name) ∧
      m'.getGlobalVariable cfg_var.lifted_name = none := by
  obtain ⟨m', hrun, -, -, htouched, huntouched⟩ :=
    exportVariables_ready cfg_module _ m hready
  obtain ⟨-, v0, hv0, hv0n, -⟩ := getGlobalVariable_some hvar
  have hv := htouched ea hea cfg_var var v0 hcv hvar hv0
  obtain ⟨hl, hd, hloc⟩ := exportedAs_linkage v0 cfg_var.name
  have hfree : (∀ f ∈ m.functions, f.name ≠ cfg_var.name) ∧
      ∀ (j : Nat) (w : GlobalValue), j ≠ var → m.globals[j]? = some w →
        w.name ≠ cfg_var.name := by
    rcases takenByOther_false.mp (hready.names_free ea hea cfg_var var hcv hvar) with he | hf
    · exact absurd he hnonempty
    · exact hf
  have hnone : ∀ (j : Nat) (w : GlobalValue), m'.globals[j]? = some w →
      w.name ≠ cfg_var.lifted_name := by
    intro j w hw hname
    by_cases ht : ∃ ea2 ∈ cfg_module.exported_vars, ∃ cv2,
        cfg_module.varAt ea2 = some cv2 ∧ m.getGlobalVariable cv2.lifted_name = some j
    · obtain ⟨ea2, hea2, cv2, hcv2, hj2⟩ := ht
      obtain ⟨-, w0, hw0, hw0n, -⟩ := getGlobalVariable_some hj2
      rw [htouched ea2 hea2 cv2 j w0 hcv2 hj2 hw0] at hw
      cases hw
      rw [exportedAs_name] at hname
      rcases takenByOther_false.mp (hready.names_free ea2 hea2 cv2 j hcv2 hj2) with he | hf
      · rw [he] at hname
        exact getGlobalVariable_ne_empty hvar hname.symm
      · by_cases hjv : var = j
        · subst hjv
          rw [hv0] at hw0
          cases hw0
          have := hready.lifted_distinct ea2 hea2 ea hea cv2 cfg_var hcv2 hcv
            (hw0n.symm.trans hv0n)
          subst this
          rw [hcv] at hcv2
          cases hcv2
          exact hne hname
        · exact hf.2 var v0 hjv hv0 (hv0n.trans hname.symm)
    · have hj := honly j w
        (by rw [← huntouched j (fun ea2 hea2 cv2 hcv2 hc => ht ⟨ea2, hea2, cv2, hcv2, hc⟩)]
            exact hw) hname
      subst hj
      exact ht ⟨ea, hea, cfg_var, hcv, hvar⟩
  refine ⟨m', _, hrun, hv, exportedAs_name _ _, hl, hd, ?_, hnone, ?_⟩
  · refine getGlobalVariable_of hnonempty ?_ hv hloc
    apply firstCarrying_of_first hv (exportedAs_name _ _)
    intro j u hj hu
    by_cases ht : ∃ ea2 ∈ cfg_module.exported_vars, ∃ cv2,
        cfg_module.varAt ea2 = some cv2 ∧ m.getGlobalVariable cv2.lifted_name = some j
    · obtain ⟨ea2, hea2, cv2, hcv2, hj2⟩ := ht
      obtain ⟨-, w, hw, -, -⟩ := getGlobalVariable_some hj2
      rw [htouched ea2 hea2 cv2 j w hcv2 hj2 hw] at hu
      cases hu
      rw [exportedAs_name]
      intro hc
      have := hready.names_distinct ea2 hea2 ea hea cv2 cfg_var hcv2 hcv hc
      subst this
      rw [hcv] at hcv2
      cases hcv2
      rw [hvar] at hj2
      cases hj2
      exact Nat.lt_irrefl _ hj
    · rw [huntouched j (fun ea2 hea2 cv2 hcv2 hc => ht ⟨ea2, hea2, cv2, hcv2, hc⟩)] at hu
      exact hfree.2 j u (Nat.ne_of_lt hj) hu
  · have hfc : firstCarrying cfg_var.lifted_name m'.globals = none :=
      firstCarrying_none.mpr (fun w hw => by
        obtain ⟨j, hj⟩ := List.mem_iff_getElem?.mp hw
        exact hnone j w hj)
    simp [Module.getGlobalVariable, findByName, hfc]

/-- The proviso holds of the scenario with the two variables. -/
theorem twoVars_ready : ExportReady twoVarsCfg twoVarsCfg.exported_vars twoVarsModule := by
  have hmem : ∀ ea ∈ twoVarsCfg.exported_vars, ea = 0x2000 ∨ ea = 0x3000 := by
    intro ea hea
    simpa [twoVarsCfg] using hea
  have h2 : twoVarsCfg.varAt 0x2000 =
      some { ea := 0x2000, name := "g_counter", lifted_name := "data_2000" } := by decide
  have h3 : twoVarsCfg.varAt 0x3000 =
      some { ea := 0x3000, name := "g_limit", lifted_name := "data_3000" } := by decide
  refine ⟨by decide, ?_, ?_, ?_, ?_⟩
  · intro ea hea
    rcases hmem ea hea with rfl | rfl
    · exact ⟨_, 0, h2, by decide⟩
    · exact ⟨_, 1, h3, by decide⟩
  · intro ea1 hea1 ea2 hea2 cv1 cv2 hc1 hc2 heq
    rcases hmem ea1 hea1 with rfl | rfl <;> rcases hmem ea2 hea2 with rfl | rfl <;>
      simp only [h2, h3, Option.some.injEq] at hc1 hc2 <;> subst hc1 <;> subst hc2 <;>
      first
      | rfl
      | (revert heq; decide)
  · intro ea1 hea1 ea2 hea2 cv1 cv2 hc1 hc2 heq
    rcases hmem ea1 hea1 with rfl | rfl <;> rcases hmem ea2 hea2 with rfl | rfl <;>
      simp only [h2, h3, Option.some.injEq] at hc1 hc2 <;> subst hc1 <;> subst hc2 <;>
      first
      | rfl
      | (revert heq; decide)
  · intro ea hea cv var hcv hvar
    rcases hmem ea hea with rfl | rfl
    · rw [h2] at hcv
      cases hcv
      have : twoVarsModule.getGlobalVariable "data_2000" = some 0 := by decide
      rw [this] at hvar
      cases hvar
      decide
    · rw [h3] at hcv
      cases hcv
      have : twoVarsModule.getGlobalVariable "data_3000" = some 1 := by decide
      rw [this] at hvar
      cases hvar
      decide

/-- Witness of the amended C5 on the scenario with the two variables: after
`ExportVariables` the lifted global of `0x2000` is under `g_counter` and
nothing is found under `data_2000`. -/
theorem ExportVariables_rename_exclusive_witness :
    ∃ m' v, ExportVariables twoVarsCfg twoVarsModule = .done m' ∧ m'.globals[0]? = some v ∧
      v.name = "g_counter" ∧ v.linkage = .ExternalLinkage ∧
      v.dllStorageClass = .DLLExportStorageClass ∧
      m'.getGlobalVariable "g_counter" = some 0 ∧
      (∀ (j : Nat) (w : GlobalValue), m'.globals[j]? = some w → w.name ≠ "data_2000") ∧
      m'.getGlobalVariable "data_2000" = none :=
  ExportVariables_rename_exclusive twoVarsCfg twoVarsModule 0x2000
    { ea := 0x2000, name := "g_counter", lifted_name := "data_2000" } 0
    twoVars_ready (by decide) (by decide) (by decide) (by decide) (by decide)
    (by
      intro j w hj hw
      rcases j with _ | _ | j
      · rfl
      · simp only [twoVarsModule, List.getElem?_cons_succ, List.getElem?_cons_zero,
          Option.some.injEq] at hj
        subst hj
        revert hw
        decide
      · simp [twoVarsModule] at hj)

/-- C10, refuted as stated: both addresses resolve, both lifted globals are
present, the lifted names differ, the native names `a` and `b` differ, and no
global variable of the module holds `a` or `b`; two functions do, so each
rename gets a unique name from the counter of the symbol table, and the two
orderings leave different modules. -/
theorem ExportVariables_order_dependent :
    heldNamesCfg.varAt 0x2000 =
      some { ea := 0x2000, name := "a", lifted_name := "data_2000" } ∧
    heldNamesCfg.varAt 0x3000 =
      some { ea := 0x3000, name := "b", lifted_name := "data_3000" } ∧
    heldNamesModule.getGlobalVariable "data_2000" = some 0 ∧
    heldNamesModule.getGlobalVariable "data_3000" = some 1 ∧
    (∀ g ∈ heldNamesModule.globals, g.name ≠ "a" ∧ g.name ≠ "b") ∧
    ExportVariables heldNamesCfg heldNamesModule = .done
      { heldNamesModule with
        globals := [(lifted "data_2000" .ExternalLinkage).exportedAs "a.1",
                    (lifted "data_3000" .ExternalLinkage).exportedAs "b.2"],
        lastUnique := 2 } ∧
    ExportVariables { heldNamesCfg with exported_vars := [0x3000, 0x2000] } heldNamesModule
      = .done
      { heldNamesModule with
        globals := [(lifted "data_2000" .ExternalLinkage).exportedAs "a.2",
                    (lifted "data_3000" .ExternalLinkage).exportedAs "b.1"],
        lastUnique := 2 } ∧
    ExportVariables heldNamesCfg heldNamesModule ≠
      ExportVariables { heldNamesCfg with exported_vars := [0x3000, 0x2000] }
        heldNamesModule := by
  decide

/-- C10, amended: under the proviso `ExportReady` (every address resolves and
`getGlobalVariable` finds its lifted global, which is therefore present
without local linkage; the lifted names are pairwise distinct, the native
names are pairwise distinct, and no native name is held by another value of
the module, function or global variable), `ExportVariables` run over any
other ordering of the same set of addresses completes, as it does over the
first ordering, and both leave the same module. -/
theorem ExportVariables_order_independent (cfg_module : NativeModule) (order2 : List Nat)
    (m : Module) (hperm : cfg_module.exported_vars.Perm order2)
    (hready : ExportReady cfg_module cfg_module.exported_vars m) :
    ∃ m', ExportVariables cfg_module m = .done m' ∧
      ExportVariables { cfg_module with exported_vars := order2 } m = .done m' := by
  obtain ⟨m1, hrun1, hf1, hl1, ht1, hu1⟩ := exportVariables_ready cfg_module _ m hready
  obtain ⟨m2, hrun2, hf2, hl2, ht2, hu2⟩ :=
    exportVariables_ready cfg_module order2 m (hready.perm hperm)
  have hglob : m1.globals = m2.globals := by
    apply List.ext_getElem?
    intro j
    by_cases ht : ∃ ea ∈ cfg_module.exported_vars, ∃ cv,
        cfg_module.varAt ea = some cv ∧ m.getGlobalVariable cv.lifted_name = some j
    · obtain ⟨ea, hea, cv, hcv, hj⟩ := ht
      obtain ⟨-, w, hw, -, -⟩ := getGlobalVariable_some hj
      rw [ht1 ea hea cv j w hcv hj hw, ht2 ea (hperm.mem_iff.mp hea) cv j w hcv hj hw]
    · rw [hu1 j (fun ea hea cv hcv hc => ht ⟨ea, hea, cv, hcv, hc⟩),
        hu2 j (fun ea hea cv hcv hc => ht ⟨ea, hperm.mem_iff.mpr hea, cv, hcv, hc⟩)]
  have heq : m1 = m2 := by
    cases m1
    cases m2
    simp only at hf1 hf2 hl1 hl2 hglob
    simp [hf1, hf2, hl1, hl2, hglob]
  refine ⟨m1, hrun1, ?_⟩
  rw [heq]
  exact hrun2

/-- Witness of C10: the two variables exported in the order `0x3000`,
`0x2000` give the module of the order `0x2000`, `0x3000`. -/
theorem ExportVariables_order_independent_witness :
    ∃ m', ExportVariables twoVarsCfg twoVarsModule = .done m' ∧
      ExportVariables { twoVarsCfg with exported_vars := [0x3000, 0x2000] } twoVarsModule
        = .done m' :=
  ExportVariables_order_independent twoVarsCfg [0x3000, 0x2000] twoVarsModule
    (List.Perm.swap 0x3000 0x2000 []) twoVars_ready

end mcsema
